import Mathlib

/-!
Verification development for the oh-my-notionmcp request router and tiered
read-cache.  The TypeScript sources under `src/` are shallowly embedded:

* JavaScript runtime values that can appear in tool parameters, SQLite rows
  and tool results are modelled by the inductive type `JsValue`
  (`undef` models JavaScript `undefined`; numbers are modelled by `Int`,
  which covers every value the verified claims touch).
* `JSON.parse` is modelled by the executable fuel-based parser `jsonParse`
  (objects, arrays, strings with the common escapes, integer numerals,
  `true`/`false`/`null`).
* The in-memory `Map` of `ReadResponseCache` is modelled as an association
  list kept in insertion order, exactly the iteration order of a JS `Map`.
* Timestamps from the injectable clock are modelled by `Int`; every cache
  operation takes the current clock reading `now` as an argument.
* `Array.prototype.sort` (stable) is modelled by `List.insertionSort`,
  which inserts earlier elements in front of later tied elements and is
  therefore stable.
* External collaborators (node:crypto digests, the HTTP client, the SQLite
  shell, `Date.prototype.toISOString`) are passed in as parameters, mirroring
  how the source injects them.
-/

/-- JavaScript runtime values (the JSON-representable fragment plus
`undefined`).  Objects are association lists in property insertion order;
JS objects never hold duplicate keys. -/
inductive JsValue where
  | null : JsValue
  | undef : JsValue
  | bool : Bool → JsValue
  | num : Int → JsValue
  | str : String → JsValue
  | arr : List JsValue → JsValue
  | obj : List (String × JsValue) → JsValue

/-- Property lookup on an object value (`v[k]`); `none` plays the role of
JavaScript `undefined` for non-objects and missing keys. -/
def JsValue.getField (v : JsValue) (k : String) : Option JsValue :=
  match v with
  | .obj l => (l.find? (fun kv => kv.1 = k)).map (·.2)
  | _ => none

/-- JavaScript truthiness for the modelled values. -/
def JsValue.truthy : JsValue → Bool
  | .null => false
  | .undef => false
  | .bool b => b
  | .num n => n != 0
  | .str s => s ≠ ""
  | .arr _ => true
  | .obj _ => true

/-- The whitespace characters accepted by `JSON.parse` between tokens. -/
def jsonWs (c : Char) : Bool :=
  c = ' ' ∨ c = '\t' ∨ c = '\n' ∨ c = '\r'

/-- The ASCII whitespace recognised by the model of `String.prototype.trim`. -/
def jsWs (c : Char) : Bool :=
  c = ' ' ∨ c = '\t' ∨ c = '\n' ∨ c = '\r' ∨ c = '\x0b' ∨ c = '\x0c'

/-- Model of `String.prototype.trim` (restricted to ASCII whitespace). -/
def jsTrim (s : String) : String :=
  String.mk (((s.toList.dropWhile jsWs).reverse.dropWhile jsWs).reverse)

def hexDigitLower (c : Char) : Bool :=
  ('0' ≤ c ∧ c ≤ '9') ∨ ('a' ≤ c ∧ c ≤ 'f')

def hexDigit (c : Char) : Bool :=
  ('0' ≤ c ∧ c ≤ '9') ∨ ('a' ≤ c ∧ c ≤ 'f') ∨ ('A' ≤ c ∧ c ≤ 'F')

/-- ASCII lower-casing, the fragment of `String.prototype.toLowerCase`
relevant to hex ids. -/
def jsCharLower (c : Char) : Char :=
  if 'A' ≤ c ∧ c ≤ 'Z' then Char.ofNat (c.toNat + 32) else c

def decDigit (c : Char) : Bool :=
  '0' ≤ c ∧ c ≤ '9'

def digitVal (c : Char) : Nat := c.toNat - '0'.toNat

/-- Decimal value of a digit list (most significant first). -/
def digitsVal (l : List Char) : Nat :=
  l.foldl (fun acc c => acc * 10 + digitVal c) 0

mutual

/-- Fuel-based recursive-descent model of `JSON.parse` on a character list:
returns the parsed value and the unconsumed rest.  Numbers are restricted to
(optionally signed) integer numerals and string escapes to the single-letter
ones; the verified claims only exercise this fragment. -/
def parseJsonValue : Nat → List Char → Option (JsValue × List Char)
  | 0, _ => none
  | fuel+1, cs =>
    match cs.dropWhile jsonWs with
    | [] => none
    | c :: rest =>
      if c = 'n' then
        match rest with
        | 'u' :: 'l' :: 'l' :: rest2 => some (.null, rest2)
        | _ => none
      else if c = 't' then
        match rest with
        | 'r' :: 'u' :: 'e' :: rest2 => some (.bool true, rest2)
        | _ => none
      else if c = 'f' then
        match rest with
        | 'a' :: 'l' :: 's' :: 'e' :: rest2 => some (.bool false, rest2)
        | _ => none
      else if c = '"' then
        (parseJsonString rest).map (fun p => (.str (String.mk p.1), p.2))
      else if c = '-' then
        match rest.span decDigit with
        | ([], _) => none
        | (ds, rest2) => some (.num (-(digitsVal ds : Int)), rest2)
      else if decDigit c then
        match rest.span decDigit with
        | (ds, rest2) => some (.num (digitsVal (c :: ds) : Int), rest2)
      else if c = '[' then
        match (rest.dropWhile jsonWs) with
        | ']' :: rest2 => some (.arr [], rest2)
        | _ => (parseJsonElems fuel rest).map (fun p => (.arr p.1, p.2))
      else if c = '{' then
        match (rest.dropWhile jsonWs) with
        | '}' :: rest2 => some (.obj [], rest2)
        | _ => (parseJsonMembers fuel rest).map (fun p => (.obj p.1, p.2))
      else
        none

/-- The characters of a JSON string literal after the opening quote. -/
def parseJsonString : List Char → Option (List Char × List Char)
  | [] => none
  | '"' :: rest => some ([], rest)
  | '\\' :: e :: rest =>
    let esc : Option Char :=
      if e = '"' then some '"'
      else if e = '\\' then some '\\'
      else if e = '/' then some '/'
      else if e = 'n' then some '\n'
      else if e = 't' then some '\t'
      else if e = 'r' then some '\r'
      else if e = 'b' then some '\x08'
      else if e = 'f' then some '\x0c'
      else none
    match esc with
    | none => none
    | some c => (parseJsonString rest).map (fun p => (c :: p.1, p.2))
  | c :: rest => (parseJsonString rest).map (fun p => (c :: p.1, p.2))

/-- Comma-separated array elements, ending at `]`. -/
def parseJsonElems : Nat → List Char → Option (List JsValue × List Char)
  | 0, _ => none
  | fuel+1, cs =>
    match parseJsonValue fuel cs with
    | none => none
    | some (v, rest) =>
      match rest.dropWhile jsonWs with
      | ']' :: rest2 => some ([v], rest2)
      | ',' :: rest2 =>
        (parseJsonElems fuel rest2).map (fun p => (v :: p.1, p.2))
      | _ => none

/-- Comma-separated `"key": value` members, ending at `}`. -/
def parseJsonMembers : Nat → List Char → Option (List (String × JsValue) × List Char)
  | 0, _ => none
  | fuel+1, cs =>
    match cs.dropWhile jsonWs with
    | '"' :: rest =>
      match parseJsonString rest with
      | none => none
      | some (k, rest2) =>
        match rest2.dropWhile jsonWs with
        | ':' :: rest3 =>
          match parseJsonValue fuel rest3 with
          | none => none
          | some (v, rest4) =>
            match rest4.dropWhile jsonWs with
            | '}' :: rest5 => some ([(String.mk k, v)], rest5)
            | ',' :: rest5 =>
              (parseJsonMembers fuel rest5).map (fun p => ((String.mk k, v) :: p.1, p.2))
            | _ => none
        | _ => none
    | _ => none

end

/-- Model of `JSON.parse`: `none` is a thrown `SyntaxError`. -/
def jsonParse (s : String) : Option JsValue :=
  match parseJsonValue (s.length + 1) s.toList with
  | some (v, rest) => if rest.dropWhile jsonWs = [] then some v else none
  | none => none

/-! ## Response cache (`src/fast/openapi-mcp-server/cache/read-response-cache.ts`)

The private `Map<string, CacheEntry<T>>` is modelled as an association list
in insertion order (`Map` iteration order); keys are unique in every
reachable state.  The injectable clock `now()` becomes an explicit `now`
argument to each operation. -/

/-- `CacheEntry<T>` of read-response-cache.ts. -/
structure CacheEntry (V : Type) where
  value : V
  createdAt : Int
  updatedAt : Int
  accessedAt : Int

/-- The in-memory entry map of a `ReadResponseCache`. -/
abbrev CacheMap (V : Type) : Type := List (String × CacheEntry V)

/-- `Map.prototype.get`. -/
def mapGet {V : Type} (l : CacheMap V) (k : String) : Option (CacheEntry V) :=
  (List.find? (fun kv => kv.1 = k) l).map (·.2)

/-- `Map.prototype.set`: overwrite in place keeps the key's position,
a new key is appended. -/
def mapSet {V : Type} : CacheMap V → String → CacheEntry V → CacheMap V
  | [], k, e => [(k, e)]
  | kv :: rest, k, e => if kv.1 = k then (k, e) :: rest else kv :: mapSet rest k e

/-- `Map.prototype.delete` (keys are unique, so filtering equals deleting). -/
def mapDeleteKey {V : Type} (l : CacheMap V) (k : String) : CacheMap V :=
  List.filter (fun kv => kv.1 ≠ k) l

namespace ReadResponseCache

/-- `isExpired`: `entry.updatedAt + this.ttlMs <= now`. -/
def isExpired {V : Type} (e : CacheEntry V) (ttlMs now : Int) : Prop :=
  e.updatedAt + ttlMs ≤ now

instance {V : Type} (e : CacheEntry V) (ttlMs now : Int) :
    Decidable (isExpired e ttlMs now) := by
  unfold isExpired; infer_instance

/-- `pruneExpired`: delete every expired entry while iterating the map. -/
def pruneExpired {V : Type} (ttlMs now : Int) (l : CacheMap V) : CacheMap V :=
  List.filter (fun kv => ¬ isExpired kv.2 ttlMs now) l

/-- The three-way comparator of `pruneMaxEntries` as a total preorder:
ascending `accessedAt`, then `updatedAt`, then `createdAt`. -/
def entryLe {V : Type} (a b : String × CacheEntry V) : Prop :=
  a.2.accessedAt < b.2.accessedAt ∨
    (a.2.accessedAt = b.2.accessedAt ∧
      (a.2.updatedAt < b.2.updatedAt ∨
        (a.2.updatedAt = b.2.updatedAt ∧ a.2.createdAt ≤ b.2.createdAt)))

instance {V : Type} : DecidableRel (entryLe (V := V)) := fun _ _ => by
  unfold entryLe; infer_instance

instance {V : Type} : IsTotal (String × CacheEntry V) entryLe :=
  ⟨fun _ _ => by unfold entryLe; omega⟩

instance {V : Type} : IsTrans (String × CacheEntry V) entryLe :=
  ⟨fun _ _ _ => by unfold entryLe; omega⟩

/-- `pruneMaxEntries`: if over capacity, stable-sort the entries by the
comparator and delete the keys of the first `overflow` of them.
(`Array.prototype.sort` is stable; `List.insertionSort` inserts earlier
elements in front of later tied ones, which is the same order.) -/
def pruneMaxEntries {V : Type} (maxEntries : Nat) (l : CacheMap V) : CacheMap V :=
  if l.length ≤ maxEntries then l
  else
    let overflow := l.length - maxEntries
    let sortedEntries := List.insertionSort entryLe l
    let evictKeys := (sortedEntries.take overflow).map Prod.fst
    List.filter (fun kv => ¬ kv.1 ∈ evictKeys) l

/-- The `entries.set(key, …)` step of `set`: insert or overwrite, keeping
`createdAt` of an existing entry (expired or not). -/
def insertStep {V : Type} (l : CacheMap V) (k : String) (v : V) (now : Int) :
    CacheMap V :=
  mapSet l k
    { value := v
      createdAt := ((mapGet l k).map (·.createdAt)).getD now
      updatedAt := now
      accessedAt := now }

/-- `set(key, value)`: insert/overwrite, prune expired, then prune overflow. -/
def set {V : Type} (ttlMs : Int) (maxEntries : Nat) (l : CacheMap V)
    (k : String) (v : V) (now : Int) : CacheMap V :=
  let afterInsert := insertStep l k v now
  let afterPrune := pruneExpired ttlMs now afterInsert
  if maxEntries < afterPrune.length then pruneMaxEntries maxEntries afterPrune
  else afterPrune

/-- `getEntryIfFresh`: a present-but-expired entry is deleted and reported
as a miss.  Returns the entry (if fresh) and the updated map. -/
def getEntryIfFresh {V : Type} (ttlMs : Int) (l : CacheMap V) (k : String)
    (now : Int) : Option (CacheEntry V) × CacheMap V :=
  match mapGet l k with
  | none => (none, l)
  | some e =>
    if isExpired e ttlMs now then (none, mapDeleteKey l k) else (some e, l)

/-- `get(key)`: on a hit, `entry.accessedAt = this.now()` mutates the stored
entry in place. -/
def get {V : Type} (ttlMs : Int) (l : CacheMap V) (k : String) (now : Int) :
    Option V × CacheMap V :=
  match getEntryIfFresh ttlMs l k now with
  | (none, l2) => (none, l2)
  | (some e, l2) => (some e.value, mapSet l2 k { e with accessedAt := now })

end ReadResponseCache

/-! ## Deterministic serialization and cache key
(`src/fast/openapi-mcp-server/cache/cache-key.ts`, cited as
`mcp/proxy-cache-params.ts` §serializeDeterministic/createCacheKey)

`serializeDeterministic` walks the value; objects are emitted with keys in
sorted order, `undefined` members are dropped, `undefined` array items
become `null`.  The `bigint`/`Date`/`toJSON` branches and the cycle check
of the source are outside the modelled value type (`JsValue` is acyclic and
JSON-representable).  `Object.keys(o).sort()` followed by member lookup is
modelled as a stable sort of the (unique-keyed) member list by key. -/

/-- One character of `JSON.stringify` string escaping. -/
def jsonQuoteChar (c : Char) : List Char :=
  if c = '"' then ['\\', '"']
  else if c = '\\' then ['\\', '\\']
  else if c = '\n' then ['\\', 'n']
  else if c = '\t' then ['\\', 't']
  else if c = '\r' then ['\\', 'r']
  else if c = '\x08' then ['\\', 'b']
  else if c = '\x0c' then ['\\', 'f']
  else if c.toNat < 32 then
    ['\\', 'u', '0', '0',
      (if c.toNat / 16 < 10 then Char.ofNat ('0'.toNat + c.toNat / 16)
       else Char.ofNat ('a'.toNat + c.toNat / 16 - 10)),
      (if c.toNat % 16 < 10 then Char.ofNat ('0'.toNat + c.toNat % 16)
       else Char.ofNat ('a'.toNat + c.toNat % 16 - 10))]
  else [c]

/-- `JSON.stringify` of a string value. -/
def jsonQuote (s : String) : String :=
  "\"" ++ String.mk (s.toList.foldr (fun c acc => jsonQuoteChar c ++ acc) []) ++ "\""

/-- ASCII upper-casing fragment of `String.prototype.toUpperCase`. -/
def jsCharUpper (c : Char) : Char :=
  if 'a' ≤ c ∧ c ≤ 'z' then Char.ofNat (c.toNat - 32) else c

def jsUpper (s : String) : String := String.mk (s.toList.map jsCharUpper)

/-- Ordering of object members by key, the comparator of
`Object.keys(…).sort()`. -/
def keyLe (a b : String × JsValue) : Prop := a.1 ≤ b.1

instance : DecidableRel keyLe := fun _ _ => by unfold keyLe; infer_instance

instance : IsTotal (String × JsValue) keyLe :=
  ⟨fun a b => le_total a.1 b.1⟩

instance : IsTrans (String × JsValue) keyLe :=
  ⟨fun _ _ _ h1 h2 => le_trans h1 h2⟩

/-- Strict version of `keyLe`, used to identify sorted member lists with
pairwise-distinct keys. -/
def keyLt (a b : String × JsValue) : Prop := a.1 < b.1

instance : IsAntisymm (String × JsValue) keyLt :=
  ⟨fun a b h1 h2 => absurd (lt_trans h1 h2) (lt_irrefl a.1)⟩

/-- `serializeDeterministic(value, seen)`: `none` models the `undefined`
return for `undefined` values (the `function`/`symbol` branches concern
values outside `JsValue`). -/
def serializeDeterministicCore : JsValue → Option String
  | .null => some "null"
  | .undef => none
  | .bool b => some (if b then "true" else "false")
  | .num n => some (toString n)
  | .str s => some (jsonQuote s)
  | .arr xs =>
    some ("[" ++
      String.intercalate ","
        (xs.attach.map (fun x => (serializeDeterministicCore x.1).getD "null")) ++ "]")
  | .obj l =>
    some ("\x7b" ++
      String.intercalate ","
        ((List.insertionSort keyLe l).attach.filterMap
          (fun kv => (serializeDeterministicCore kv.1.2).map
            (fun s => jsonQuote kv.1.1 ++ ":" ++ s))) ++ "\x7d")
termination_by v => sizeOf v
decreasing_by
  · have := List.sizeOf_lt_of_mem x.2
    simp only [JsValue.arr.sizeOf_spec]
    omega
  · have hmem := (List.perm_insertionSort keyLe _).mem_iff.mp kv.2
    have h1 := List.sizeOf_lt_of_mem hmem
    have h2 : sizeOf kv.1.2 < sizeOf kv.1 := by
      obtain ⟨a, b⟩ := kv.1
      simp only [Prod.mk.sizeOf_spec]
      omega
    simp only [JsValue.obj.sizeOf_spec]
    omega

/-- `deterministicStringify`. -/
def deterministicStringify (v : JsValue) : String :=
  (serializeDeterministicCore v).getD "null"

/-- `CacheKeyOperation` of cache-key.ts (`operationId?: string | null`). -/
structure CacheKeyOperation where
  method : String
  path : String
  operationId : Option String

/-- `createCacheKey(operation, params)`.  The SHA-256 hex digest of
node:crypto is an external collaborator, passed in as `digest`. -/
def createCacheKey (digest : String → String) (operation : CacheKeyOperation)
    (params : JsValue) : String :=
  let method := jsUpper operation.method
  let operationIdNorm : JsValue := (operation.operationId.map JsValue.str).getD .null
  let payload := deterministicStringify
    (.obj [("operation",
            .obj [("method", .str method), ("path", .str operation.path),
                  ("operationId", operationIdNorm)]),
           ("params", params)])
  let operationId := operation.operationId.getD "-"
  "openapi-cache:v1:" ++ method ++ ":" ++ operation.path ++ ":" ++ operationId
    ++ ":" ++ digest payload

/-- Plain `JSON.stringify` on modelled values (members in insertion order,
`undefined` members dropped, `undefined` array items become `null`);
`none` is `JSON.stringify(undefined)`. -/
def jsonStringifyCore : JsValue → Option String
  | .null => some "null"
  | .undef => none
  | .bool b => some (if b then "true" else "false")
  | .num n => some (toString n)
  | .str s => some (jsonQuote s)
  | .arr xs =>
    some ("[" ++
      String.intercalate ","
        (xs.attach.map (fun x => (jsonStringifyCore x.1).getD "null")) ++ "]")
  | .obj l =>
    some ("\x7b" ++
      String.intercalate ","
        (l.attach.filterMap
          (fun kv => (jsonStringifyCore kv.1.2).map
            (fun s => jsonQuote kv.1.1 ++ ":" ++ s))) ++ "\x7d")
termination_by v => sizeOf v
decreasing_by
  · have := List.sizeOf_lt_of_mem x.2
    simp only [JsValue.arr.sizeOf_spec]
    omega
  · have h1 := List.sizeOf_lt_of_mem kv.2
    have h2 : sizeOf kv.1.2 < sizeOf kv.1 := by
      obtain ⟨a, b⟩ := kv.1
      simp only [Prod.mk.sizeOf_spec]
      omega
    simp only [JsValue.obj.sizeOf_spec]
    omega

/-- `JSON.stringify(data)` used as an expression (JS `undefined` when the
value is not JSON-stringifiable). -/
def jsonStringifyField (v : JsValue) : JsValue :=
  match jsonStringifyCore v with
  | some s => .str s
  | none => ( .undef)

/-- Structural equality of JS values up to object key order: arrays must
agree pointwise in order, object member lists are permutations of each other
(with equal keys and equivalent values) and carry no duplicate keys, exactly
the shape of a JS object literal. -/
inductive EqUpToKeyOrder : JsValue → JsValue → Prop where
  | null : EqUpToKeyOrder .null .null
  | undef : EqUpToKeyOrder .undef .undef
  | bool (b : Bool) : EqUpToKeyOrder (.bool b) (.bool b)
  | num (n : Int) : EqUpToKeyOrder (.num n) (.num n)
  | str (s : String) : EqUpToKeyOrder (.str s) (.str s)
  | arr {xs ys : List JsValue} :
      List.Forall₂ EqUpToKeyOrder xs ys → EqUpToKeyOrder (.arr xs) (.arr ys)
  | obj {xs zs ys : List (String × JsValue)} :
      (xs.map Prod.fst).Nodup →
      xs.Perm zs →
      zs.map Prod.fst = ys.map Prod.fst →
      List.Forall₂ EqUpToKeyOrder (zs.map Prod.snd) (ys.map Prod.snd) →
      EqUpToKeyOrder (.obj xs) (.obj ys)

/-! ## Proxy cache params and the local backend call handler
(`src/fast/openapi-mcp-server/mcp/proxy-cache-params.ts`,
`mcp/read-only-allowlist.ts` and the `CallToolRequestSchema` handler of
`mcp/proxy.ts`, cited as `local-app-cache/notion-app-sqlite-cache.ts`).

Tool-call argument objects are association lists `List (String × JsValue)`.
The handler's collaborators (response cache contents, the local SQLite
cache outcome, the HTTP client outcome, the crypto digest and the clock)
are explicit parameters; the handler output records which collaborators
were consulted and what reached them. -/

/-- Member access `o[k]` on an argument object (JS `undefined` if absent). -/
def objGetD (l : List (String × JsValue)) (k : String) : JsValue :=
  ((l.find? (fun kv => kv.1 = k)).map (·.2)).getD ( .undef)

/-- `{ ...base, [k]: v }`: overwrite keeps the key's first position,
a new key is appended. -/
def objSet : List (String × JsValue) → String → JsValue → List (String × JsValue)
  | [], k, v => [(k, v)]
  | kv :: rest, k, v => if kv.1 = k then (k, v) :: rest else kv :: objSet rest k v

def MCP_FAST_FORCE_REFRESH_FIELD : String := "__mcpFastForceRefresh"

/-- `splitProxyCacheParams(params)`: split off the control field; a
non-boolean control value counts as `false`.  `none` is `null`/`undefined`
input. -/
def splitProxyCacheParams (params : Option (List (String × JsValue))) :
    List (String × JsValue) × Bool :=
  match params with
  | none => ([], false)
  | some l =>
    let forceRefreshMeta :=
      (l.find? (fun kv => kv.1 = MCP_FAST_FORCE_REFRESH_FIELD)).map (·.2)
    let sanitizedParams := l.filter (fun kv => kv.1 ≠ MCP_FAST_FORCE_REFRESH_FIELD)
    (sanitizedParams,
      match forceRefreshMeta with
      | some (JsValue.bool b) => b
      | _ => false)

/-- ASCII lower-casing of a string (`String.prototype.toLowerCase`). -/
def jsLower (s : String) : String := String.mk (s.toList.map jsCharLower)

/-- `READ_OPERATION_METHODS` of read-only-allowlist.ts. -/
def READ_OPERATION_METHODS : List (String × String) :=
  [("get-user", "get"), ("get-users", "get"), ("get-self", "get"),
   ("post-search", "post"), ("get-block-children", "get"),
   ("retrieve-a-block", "get"), ("retrieve-a-page", "get"),
   ("retrieve-a-page-property", "get"), ("retrieve-a-comment", "get"),
   ("query-data-source", "post"), ("retrieve-a-data-source", "get"),
   ("list-data-source-templates", "get"), ("retrieve-a-database", "get")]

/-- `isReadOnlyOperationAllowlisted({method, operationId})`; `none` and the
empty string are the falsy `undefined`/`''` cases. -/
def isReadOnlyOperationAllowlisted (method operationId : Option String) : Bool :=
  match operationId, method with
  | some oid, some m =>
    if oid = "" ∨ m = "" then false
    else ((READ_OPERATION_METHODS.find? (fun kv => kv.1 = oid)).map (·.2)) = some (jsLower m)
  | _, _ => false

/-- An entry of `openApiLookup`: an OpenAPI operation with its method and
path (`operationId` may be absent). -/
structure OperationEntry where
  method : String
  path : String
  operationId : Option String

/-- `MCPProxy.isOperationAllowlisted`. -/
def isOperationAllowlisted (op : OperationEntry) : Bool :=
  isReadOnlyOperationAllowlisted (some op.method) op.operationId

/-- `MCPProxy.findOperation`: direct lookup, then the alias table
(`null`-valued aliases are intentionally unresolvable). -/
def findOperation (openApiLookup : List (String × OperationEntry))
    (toolNameAliases : List (String × Option String)) (operationId : String) :
    Option OperationEntry :=
  match (openApiLookup.find? (fun kv => kv.1 = operationId)).map (·.2) with
  | some op => some op
  | none =>
    match (toolNameAliases.find? (fun kv => kv.1 = operationId)).map (·.2) with
    | some (some canonicalName) =>
      if canonicalName = "" then none
      else (openApiLookup.find? (fun kv => kv.1 = canonicalName)).map (·.2)
    | _ => none

/-- `deserializeParams(params)`: re-parse string members that look like
serialized JSON objects/arrays, recursing into parsed objects.  The JS
recursion is unbounded; `fuel` dominates the nesting depth (every theorem
below holds for every fuel). -/
def deserializeParams : Nat → List (String × JsValue) → List (String × JsValue)
  | 0, params => params
  | fuel+1, params =>
    params.map (fun kv =>
      (kv.1,
        match kv.2 with
        | .str s =>
          let trimmed := jsTrim s
          if (trimmed.startsWith "\x7b" && trimmed.endsWith "\x7d")
              || (trimmed.startsWith "[" && trimmed.endsWith "]") then
            match jsonParse s with
            | some (.obj o) => .obj (deserializeParams fuel o)
            | some (.arr a) => .arr a
            | _ => .str s
          else .str s
        | v => v))

def READ_ONLY_BLOCK_MESSAGE : String :=
  "This MCP server is read-only and only supports allowlisted operations."

def READ_ONLY_BLOCK_GUIDANCE : String :=
  "Use the official Notion MCP server for write operations."

def CACHE_CONTEXT_KEY : String := "__mcpFastContext"

/-- `MCPProxy.toMcpToolResponse`. -/
def toMcpToolResponse (data : JsValue) : JsValue :=
  .obj [("content", .arr [.obj [("type", .str "text"), ("text", jsonStringifyField data)]])]

/-- `MCPProxy.createReadOnlyBlockedResponse`. -/
def createReadOnlyBlockedResponse (toolName : String) (operation : OperationEntry) :
    JsValue :=
  let payload : JsValue := .obj
    [("status", .str "error"),
     ("code", .str "READ_ONLY_OPERATION_BLOCKED"),
     ("message", .str READ_ONLY_BLOCK_MESSAGE),
     ("guidance", .str READ_ONLY_BLOCK_GUIDANCE),
     ("attemptedOperation", .obj
       [("toolName", .str toolName),
        ("operationId", (operation.operationId.map JsValue.str).getD .null),
        ("method", .str (jsUpper operation.method)),
        ("path", .str operation.path)])]
  .obj [("content", .arr [.obj [("type", .str "text"),
                                ("text", jsonStringifyField payload)]]),
        ("isError", .bool true)]

/-- `MCPProxy.buildResponseCacheKey`: the sanitized params plus the injected
`__mcpFastContext` sub-object. -/
def buildResponseCacheKey (digest : String → String)
    (authFingerprint baseUrl : String) (operation : OperationEntry)
    (params : List (String × JsValue)) : String :=
  createCacheKey digest
    { method := operation.method, path := operation.path,
      operationId := operation.operationId }
    (.obj (objSet params CACHE_CONTEXT_KEY
      (.obj [("authFingerprint", .str authFingerprint), ("baseUrl", .str baseUrl)])))

/-- `a ?? b`. -/
def nullishCoalesce (a b : JsValue) : JsValue :=
  match a with
  | .null => b
  | .undef => b
  | v => v

/-- Failure modes of `HttpClient.executeOperation`: an `HttpClientError`
carrying its `data` property, or any other thrown error. -/
inductive HttpFailure where
  | clientErr (errData : JsValue) : HttpFailure
  | other (msg : String) : HttpFailure

/-- `error.data?.response?.data ?? error.data ?? {}`. -/
def httpErrorPayloadData (errData : JsValue) : JsValue :=
  let chained : JsValue :=
    match errData with
    | .null => .undef
    | .undef => .undef
    | d =>
      match d.getField "response" with
      | some r =>
        (match r with
         | .null => .undef
         | .undef => .undef
         | rr => ((rr.getField "data").getD .undef))
      | none => .undef
  nullishCoalesce chained (nullishCoalesce errData (.obj []))

/-- `{ ...base, ...v }` for an object or array `v` (array spread contributes
index keys). -/
def objSpread (base : List (String × JsValue)) : JsValue → List (String × JsValue)
  | .obj l => l.foldl (fun acc kv => objSet acc kv.1 kv.2) base
  | .arr xs => (xs.enum).foldl (fun acc p => objSet acc (toString p.1) p.2) base
  | _ => base

/-- The structured error result built from an `HttpClientError`. -/
def httpClientErrorResult (errData : JsValue) : JsValue :=
  let data := httpErrorPayloadData errData
  let payload : List (String × JsValue) :=
    match data with
    | .obj l => objSpread [("status", .str "error")] (.obj l)
    | .arr xs => objSpread [("status", .str "error")] (.arr xs)
    | d => objSet [("status", .str "error")] "data" d
  .obj [("content", .arr [.obj [("type", .str "text"),
          ("text", jsonStringifyField (.obj payload))]]),
        ("isError", .bool true)]

/-- Static proxy state consumed by the call handler. -/
structure ProxyEnv where
  openApiLookup : List (String × OperationEntry)
  toolNameAliases : List (String × Option String)
  digest : String → String
  authFingerprint : String
  baseUrl : String
  ttlMs : Int
  maxEntries : Nat
  deserializeFuel : Nat

/-- Observable outcome of one `CallToolRequestSchema` handler run:
the returned result (or thrown error), the response-cache contents after
the run, and which collaborators were consulted.  `responseCacheRead` is
true iff `ReadResponseCache.get` ran; `localCacheQueried` is true iff the
local-app-cache query expression ran; `httpParams` is `some args` iff
`httpClient.executeOperation` was invoked with `args`. -/
structure HandlerOut where
  outcome : Except String JsValue
  responseCache : Option (CacheMap JsValue)
  responseCacheRead : Bool
  localCacheQueried : Bool
  httpParams : Option (List (String × JsValue))

/-- The HTTP stage of the handler (step 7 of §4.4). -/
def handlerHttpStage (env : ProxyEnv) (cache1 : Option (CacheMap JsValue))
    (now : Int) (httpOutcome : Except HttpFailure JsValue) (cacheKey : String)
    (sanitizedParams : List (String × JsValue)) (cacheRead localQueried : Bool) :
    HandlerOut :=
  match httpOutcome with
  | .ok data =>
    let mcpResponse := toMcpToolResponse data
    { outcome := .ok mcpResponse
      responseCache := cache1.map (fun c =>
        ReadResponseCache.set env.ttlMs env.maxEntries c cacheKey mcpResponse now)
      responseCacheRead := cacheRead
      localCacheQueried := localQueried
      httpParams := some sanitizedParams }
  | .error (.clientErr errData) =>
    { outcome := .ok (httpClientErrorResult errData)
      responseCache := cache1
      responseCacheRead := cacheRead
      localCacheQueried := localQueried
      httpParams := some sanitizedParams }
  | .error (.other msg) =>
    { outcome := .error msg
      responseCache := cache1
      responseCacheRead := cacheRead
      localCacheQueried := localQueried
      httpParams := some sanitizedParams }

/-- The local-app-cache stage of the handler (step 6 of §4.4):
`localOutcome` is what `await this.localAppCache?.query(…)` evaluates to
(`.error` = thrown, `.ok .null`/`.ok .undef` = miss). -/
def handlerLocalStage (env : ProxyEnv) (cache1 : Option (CacheMap JsValue))
    (now : Int) (localOutcome : Except Unit JsValue)
    (httpOutcome : Except HttpFailure JsValue) (cacheKey : String)
    (sanitizedParams : List (String × JsValue)) (cacheRead : Bool) : HandlerOut :=
  match localOutcome with
  | .error _ =>
    handlerHttpStage env cache1 now httpOutcome cacheKey sanitizedParams cacheRead true
  | .ok localData =>
    match localData with
    | .null =>
      handlerHttpStage env cache1 now httpOutcome cacheKey sanitizedParams cacheRead true
    | .undef =>
      handlerHttpStage env cache1 now httpOutcome cacheKey sanitizedParams cacheRead true
    | d =>
      let mcpResponse := toMcpToolResponse d
      { outcome := .ok mcpResponse
        responseCache := cache1.map (fun c =>
          ReadResponseCache.set env.ttlMs env.maxEntries c cacheKey mcpResponse now)
        responseCacheRead := cacheRead
        localCacheQueried := true
        httpParams := none }

/-- The `CallToolRequestSchema` handler of `MCPProxy.setupHandlers`. -/
def handleCallTool (env : ProxyEnv) (cache0 : Option (CacheMap JsValue))
    (now : Int) (localOutcome : Except Unit JsValue)
    (httpOutcome : Except HttpFailure JsValue) (name : String)
    (params : Option (List (String × JsValue))) : HandlerOut :=
  match findOperation env.openApiLookup env.toolNameAliases name with
  | none =>
    { outcome := .error ("Method " ++ name ++ " not found")
      responseCache := cache0
      responseCacheRead := false
      localCacheQueried := false
      httpParams := none }
  | some operation =>
    if isOperationAllowlisted operation = false then
      { outcome := .ok (createReadOnlyBlockedResponse name operation)
        responseCache := cache0
        responseCacheRead := false
        localCacheQueried := false
        httpParams := none }
    else
      let deserializedParams :=
        match params with
        | some p => deserializeParams env.deserializeFuel p
        | none => []
      let split := splitProxyCacheParams (some deserializedParams)
      let sanitizedParams := split.1
      let forceRefresh := split.2
      let cacheKey := buildResponseCacheKey env.digest env.authFingerprint
        env.baseUrl operation sanitizedParams
      if forceRefresh then
        handlerHttpStage env cache0 now httpOutcome cacheKey sanitizedParams
          false false
      else
        match cache0 with
        | some c =>
          let got := ReadResponseCache.get env.ttlMs c cacheKey now
          (match got.1 with
           | some cachedResponse =>
             { outcome := .ok cachedResponse
               responseCache := some got.2
               responseCacheRead := true
               localCacheQueried := false
               httpParams := none }
           | none =>
             handlerLocalStage env (some got.2) now localOutcome httpOutcome
               cacheKey sanitizedParams true)
        | none =>
          handlerLocalStage env none now localOutcome httpOutcome cacheKey
            sanitizedParams false

/-! ## Router result helpers (`src/router/utils.ts`) -/

/-- `pat` occurs as a contiguous substring of `hay`. -/
def substrB (pat hay : List Char) : Bool :=
  hay.tails.any (fun t => pat.isPrefixOf t)

/-- `isErrorToolResult(result)`:
`Boolean(result && typeof result === 'object' && result.isError === true)`. -/
def isErrorToolResult (result : JsValue) : Bool :=
  match result.getField "isError" with
  | some (JsValue.bool true) => true
  | _ => false

/-- The `for (const item of r.content)` loop of `maybeParseResultJson`:
return the parse of the first text item whose text parses as JSON. -/
def firstParsedTextItem : List JsValue → JsValue
  | [] => .null
  | item :: rest =>
    if item.truthy = false then firstParsedTextItem rest
    else
      match item.getField "type", item.getField "text" with
      | some (JsValue.str "text"), some (JsValue.str t) =>
        (match jsonParse t with
         | some v => v
         | none => firstParsedTextItem rest)
      | _, _ => firstParsedTextItem rest

/-- `maybeParseResultJson(result)` (`.null` models the `null` returns,
which JS cannot distinguish from a parsed `null`). -/
def maybeParseResultJson (result : JsValue) : JsValue :=
  match result with
  | .obj _ | .arr _ =>
    (match result.getField "content" with
     | some (JsValue.arr items) => firstParsedTextItem items
     | _ => .null)
  | _ => .null

/-- `parsed.<k>` is an array of length 0. -/
def hasEmptyArrayField (parsed : JsValue) (k : String) : Bool :=
  match parsed.getField k with
  | some (JsValue.arr []) => true
  | _ => false

/-- `looksEmptyReadResult(result)`. -/
def looksEmptyReadResult (result : JsValue) : Bool :=
  match result with
  | .obj _ | .arr _ =>
    if isErrorToolResult result then false
    else
      let parsed := maybeParseResultJson result
      match parsed with
      | .obj _ | .arr _ =>
        hasEmptyArrayField parsed "results" || hasEmptyArrayField parsed "users"
          || hasEmptyArrayField parsed "items"
      | _ => false
  | _ => false

/-! ## Remote-subprocess backend call flow (`src/router/backend-client.ts`)

`BackendClient.callTool` with its collaborators abstracted: the first RPC
attempt, the `reconnect()` attempt and the retried RPC are passed in as
outcomes (`.error` carries the thrown error's message). -/

/-- `BackendClient.callTool(name, args)`: on first failure reconnect once;
if the reconnect fails (or times out), throw
`` `${name} backend call failed and reconnect also failed: ${reconnectError.message}` ``;
otherwise return the retried call's outcome as is. -/
def backendCallToolFlow (name : String) (firstAttempt : Except String JsValue)
    (reconnectAttempt : Except String Unit)
    (secondAttempt : Except String JsValue) : Except String JsValue :=
  match firstAttempt with
  | .ok r => .ok r
  | .error _ =>
    match reconnectAttempt with
    | .error reconnectError =>
      .error (name ++ " backend call failed and reconnect also failed: "
        ++ reconnectError)
    | .ok _ => secondAttempt

/-! ## Local SQLite fast-path
(`src/fast/openapi-mcp-server/local-app-cache/notion-app-sqlite-cache.ts`)

SQLite rows arrive from the external `sqlite3 -json` shell; a row is a JSON
object whose consumed columns are modelled by `BlockRow` (absent column =
`undef`).  `getBlockChildren` issues two queries; their row lists are the
parameters `parentRows` and `childRows`.  `Date.prototype.toISOString` is
the external formatter parameter `iso`. -/

/-- The columns of the `block` table consumed by the fast path. -/
structure BlockRow where
  id : JsValue
  type : JsValue
  created_time : JsValue
  last_edited_time : JsValue
  alive : JsValue
  properties : JsValue
  content : JsValue

/-- `normalizePageOrBlockId(raw)`: trim, strip every dash, lower-case;
accept iff 32 lowercase-hex chars remain; emit the 8-4-4-4-12 dashed form. -/
def normalizePageOrBlockId (raw : JsValue) : Option String :=
  match raw with
  | .str s =>
    let compact := ((jsTrim s).toList.filter (fun c => c ≠ '-')).map jsCharLower
    if compact.length = 32 ∧ compact.all hexDigitLower then
      some (String.mk
        (compact.take 8 ++ '-' :: ((compact.drop 8).take 4)
          ++ '-' :: ((compact.drop 12).take 4)
          ++ '-' :: ((compact.drop 16).take 4)
          ++ '-' :: compact.drop 20))
    else none
  | _ => none

/-- `toRichText(text)`. -/
def toRichText (text : String) : JsValue :=
  if text = "" then .arr []
  else .arr [.obj
    [("type", .str "text"),
     ("text", .obj [("content", .str text), ("link", .null)]),
     ("annotations", .obj
       [("bold", .bool false), ("italic", .bool false),
        ("strikethrough", .bool false), ("underline", .bool false),
        ("code", .bool false), ("color", .str "default")]),
     ("plain_text", .str text),
     ("href", .null)]]

/-- `toIsoTimestamp(raw)`: `iso` is `n ↦ new Date(n).toISOString()`. -/
def toIsoTimestamp (iso : Int → String) (raw : JsValue) : JsValue :=
  match raw with
  | .num n => .str (iso n)
  | _ => .null

/-- `parseJsonObject(raw)`: lenient, `{}` on any failure. -/
def parseJsonObject (raw : JsValue) : List (String × JsValue) :=
  match raw with
  | .str s =>
    if (jsTrim s).length = 0 then []
    else
      match jsonParse s with
      | some (JsValue.obj l) => l
      | _ => []
  | _ => []

/-- `parseJsonArray(raw)`: lenient, `[]` on any failure. -/
def parseJsonArray (raw : JsValue) : List JsValue :=
  match raw with
  | .str s =>
    if (jsTrim s).length = 0 then []
    else
      match jsonParse s with
      | some (JsValue.arr l) => l
      | _ => []
  | _ => []

/-- `parseJsonObjectStrict(raw)`: `none` on an invalid snapshot payload. -/
def parseJsonObjectStrict (raw : JsValue) : Option (List (String × JsValue)) :=
  match raw with
  | .str s =>
    if (jsTrim s).length = 0 then some []
    else
      match jsonParse s with
      | some (JsValue.obj l) => some l
      | _ => none
  | _ => none

/-- `parseJsonArrayStrict(raw)`. -/
def parseJsonArrayStrict (raw : JsValue) : Option (List JsValue) :=
  match raw with
  | .str s =>
    if (jsTrim s).length = 0 then some []
    else
      match jsonParse s with
      | some (JsValue.arr l) => some l
      | _ => none
  | _ => none

/-- `extractPlainText(rawPropertyValue)`. -/
def extractPlainText (rawPropertyValue : JsValue) : String :=
  match rawPropertyValue with
  | .arr parts =>
    String.join (parts.map (fun part =>
      match part with
      | .arr (JsValue.str s :: _) => s
      | _ => ""))
  | _ => ""

/-- `mapLocalTypeToApiType(localType)`. -/
def mapLocalTypeToApiType (localType : String) : String :=
  if localType = "text" then "paragraph"
  else if localType = "header" then "heading_1"
  else if localType = "sub_header" then "heading_2"
  else if localType = "sub_sub_header" then "heading_3"
  else if localType = "bulleted_list" then "bulleted_list_item"
  else if localType = "numbered_list" then "numbered_list_item"
  else if localType = "page" then "child_page"
  else localType

/-- `buildBlockPayload(apiType, plainText)`. -/
def buildBlockPayload (apiType : String) (plainText : String) : JsValue :=
  if apiType = "divider" then .obj []
  else if apiType = "child_page" then .obj [("title", .str plainText)]
  else if apiType = "to_do" then
    .obj [("rich_text", toRichText plainText), ("checked", .bool false),
          ("color", .str "default")]
  else .obj [("rich_text", toRichText plainText), ("color", .str "default")]

/-- `row.alive !== 1`. -/
def aliveNotOne (v : JsValue) : Bool :=
  match v with
  | .num n => n ≠ 1
  | _ => true

/-- `toNotionBlock(row)` (call sites have validated that `row.type` is a
non-empty string). -/
def toNotionBlock (iso : Int → String) (row : BlockRow) : JsValue :=
  let properties := parseJsonObject row.properties
  let plainText := extractPlainText (objGetD properties "title")
  let typeStr := match row.type with | .str s => s | _ => ""
  let apiType := mapLocalTypeToApiType typeStr
  let children := parseJsonArray row.content
  .obj [("object", .str "block"),
        ("id", row.id),
        ("created_time", toIsoTimestamp iso row.created_time),
        ("last_edited_time", toIsoTimestamp iso row.last_edited_time),
        ("archived", .bool (aliveNotOne row.alive)),
        ("in_trash", .bool (aliveNotOne row.alive)),
        ("has_children", .bool (!children.isEmpty)),
        ("type", .str apiType),
        (apiType, buildBlockPayload apiType plainText)]

/-- `String(v)` (the fragment needed for `String(params.page_size ?? '')`):
arrays join their elements with `,`, plain objects print as
`[object Object]`. -/
def jsToString : JsValue → String
  | .null => "null"
  | .undef => "undefined"
  | .bool b => if b then "true" else "false"
  | .num n => toString n
  | .str s => s
  | .arr xs => String.intercalate "," (xs.attach.map (fun x => jsToString x.1))
  | .obj _ => "[object Object]"
termination_by v => sizeOf v
decreasing_by
  have := List.sizeOf_lt_of_mem x.2
  simp only [JsValue.arr.sizeOf_spec]
  omega

/-- `Number.parseInt(s, 10)`: `none` is `NaN`. -/
def jsParseInt (s : String) : Option Int :=
  let cs := s.toList.dropWhile jsWs
  match cs with
  | '-' :: rest =>
    (match rest.span decDigit with
     | ([], _) => none
     | (ds, _) => some (-(digitsVal ds : Int)))
  | '+' :: rest =>
    (match rest.span decDigit with
     | ([], _) => none
     | (ds, _) => some ((digitsVal ds : Int)))
  | _ =>
    (match cs.span decDigit with
     | ([], _) => none
     | (ds, _) => some ((digitsVal ds : Int)))

/-- `childIds.indexOf(x)` as an optional index. -/
def listIndexOf : List String → String → Option Nat
  | [], _ => none
  | y :: rest, x =>
    if y = x then some 0 else (listIndexOf rest x).map (· + 1)

/-- Normalize every element of the parent's `content` array
(the `for (const childId of parentContent)` loop; any failure aborts). -/
def normalizeChildIds : List JsValue → Option (List String)
  | [] => some []
  | c :: rest =>
    match normalizePageOrBlockId c with
    | none => none
    | some n => (normalizeChildIds rest).map (n :: ·)

/-- The `latestRowById` map: first row per id wins (`ORDER BY … DESC` puts
the latest row first).  Only string-keyed rows are retrievable, and only
string ids are ever looked up. -/
def buildLatestRowById (rows : List BlockRow) : List (String × BlockRow) :=
  rows.foldl (fun acc row =>
    match row.id with
    | .str s => if (acc.find? (fun kv => kv.1 = s)).isSome then acc else acc ++ [(s, row)]
    | _ => acc) []

/-- Validation applied to each fetched child row. -/
def validChildRow (childId : String) (row : BlockRow) : Bool :=
  (normalizePageOrBlockId row.id = some childId : Bool)
    && (match row.type with
        | .str s => (jsTrim s).length ≠ 0
        | _ => false)
    && (parseJsonObjectStrict row.properties).isSome
    && (parseJsonArrayStrict row.content).isSome

/-- The `for (const childId of pagedChildIds)` collection loop: look up,
validate, keep parent-content order; any miss aborts with `null`. -/
def collectOrderedRows (latest : List (String × BlockRow)) :
    List String → Option (List BlockRow)
  | [] => some []
  | childId :: rest =>
    match (latest.find? (fun kv => kv.1 = childId)).map (·.2) with
    | none => none
    | some row =>
      if validChildRow childId row then
        (collectOrderedRows latest rest).map (row :: ·)
      else none

/-- The empty-page result object. -/
def emptyChildrenResult : JsValue :=
  .obj [("object", .str "list"), ("results", .arr []), ("next_cursor", .null),
        ("has_more", .bool false), ("type", .str "block"), ("block", .obj [])]

/-- The page size `getBlockChildren` uses: the raw `page_size` field is
read as a number (or parsed from its string form); a positive value is
capped at `maxPageSize`, anything else falls back to `maxPageSize`. -/
def blockChildrenPageSize (maxPageSize : Int) (pageSizeField : JsValue) : Int :=
  let pageSizeRaw : Option Int :=
    match pageSizeField with
    | .num n => some n
    | v => jsParseInt (jsToString (nullishCoalesce v (.str "")))
  match pageSizeRaw with
  | some n => if 0 < n then min n maxPageSize else maxPageSize
  | none => maxPageSize

/-- The start index `getBlockChildren` uses: no cursor means index 0; a
cursor must normalize and occur in `childIds`, and the page starts just
after it (`cursorIndex + 1`). -/
def blockChildrenStartIndex (childIds : List String)
    (startCursorField : JsValue) : Option Nat :=
  match startCursorField with
  | .undef => some 0
  | .null => some 0
  | sc =>
    match normalizePageOrBlockId sc with
    | none => none
    | some startCursor =>
      match listIndexOf childIds startCursor with
      | none => none
      | some cursorIndex => some (cursorIndex + 1)

/-- Building one page of children once the parent's normalized child ids,
the start index and the page size are known (the tail of
`getBlockChildren`). -/
def blockChildrenPage (iso : Int → String) (childRows : List BlockRow)
    (childIds : List String) (startIndex : Nat) (pageSize : Int) :
    Option JsValue :=
  let pagedChildIds := (childIds.drop startIndex).take pageSize.toNat
  if pagedChildIds.isEmpty then some emptyChildrenResult
  else
    let latestRowById := buildLatestRowById childRows
    match collectOrderedRows latestRowById pagedChildIds with
    | none => none
    | some orderedRows =>
      let results := orderedRows.map (toNotionBlock iso)
      let hasMore :=
        decide (startIndex + pagedChildIds.length < childIds.length)
      let nextCursor : JsValue :=
        if hasMore then
          (match pagedChildIds.getLast? with
           | some s => .str s
           | none => .undef)
        else .null
      some (.obj
        [("object", .str "list"), ("results", .arr results),
         ("next_cursor", nextCursor), ("has_more", .bool hasMore),
         ("type", .str "block"), ("block", .obj [])])

/-- `NotionAppSqliteCache.getBlockChildren(params)`.  `parentRows` and
`childRows` are what the injected SQL runner returns for the parent
`SELECT content …` query and the child `SELECT id, type, … IN (…)` query;
`maxPageSize` is `config.maxPageSize`. -/
def getBlockChildren (maxPageSize : Int) (iso : Int → String)
    (params : List (String × JsValue)) (parentRows childRows : List BlockRow) :
    Option JsValue :=
  match normalizePageOrBlockId (objGetD params "block_id") with
  | none => none
  | some _ =>
    match parentRows with
    | [] => none
    | parentRow :: _ =>
      match parseJsonArrayStrict parentRow.content with
      | none => none
      | some parentContent =>
        match normalizeChildIds parentContent with
        | none => none
        | some childIds =>
          let pageSize := blockChildrenPageSize maxPageSize (objGetD params "page_size")
          match blockChildrenStartIndex childIds (objGetD params "start_cursor") with
          | none => none
          | some startIndex =>
            blockChildrenPage iso childRows childIds startIndex pageSize

/-! ## Spec-side definitions

Predicates transcribed from the specification's wording (not from the
source), used to compare claimed behaviour against the embedded code. -/

/-- Spec wording (C9): "32 hex characters". -/
def specIs32Hex (s : String) : Bool :=
  s.toList.length = 32 && s.toList.all hexDigit

/-- Spec wording (C9): "canonical 8-4-4-4-12 dashed UUID". -/
def specIsCanonicalDashedUuid (s : String) : Bool :=
  let cs := s.toList
  cs.length = 36
    && (cs.take 8).all hexDigit
    && cs.getD 8 'x' = '-'
    && ((cs.drop 9).take 4).all hexDigit
    && cs.getD 13 'x' = '-'
    && ((cs.drop 14).take 4).all hexDigit
    && cs.getD 18 'x' = '-'
    && ((cs.drop 19).take 4).all hexDigit
    && cs.getD 23 'x' = '-'
    && (cs.drop 24).all hexDigit

/-- The inputs the claim says ID normalization accepts. -/
def claimAcceptsId (s : String) : Bool :=
  specIs32Hex s || specIsCanonicalDashedUuid s

/-- A string in canonical lowercase 8-4-4-4-12 dashed form. -/
def isCanonicalLowerDashed (s : String) : Bool :=
  let cs := s.toList
  cs.length = 36
    && (cs.take 8).all hexDigitLower
    && cs.getD 8 'x' = '-'
    && ((cs.drop 9).take 4).all hexDigitLower
    && cs.getD 13 'x' = '-'
    && ((cs.drop 14).take 4).all hexDigitLower
    && cs.getD 18 'x' = '-'
    && ((cs.drop 19).take 4).all hexDigitLower
    && cs.getD 23 'x' = '-'
    && (cs.drop 24).all hexDigitLower

/-- Amended acceptance condition: after trimming, the string consists of
dashes and hex digits only, with exactly 32 hex digits. -/
def amendedAcceptsId (s : String) : Bool :=
  let t := (jsTrim s).toList
  t.all (fun c => c = '-' || hexDigit c)
    && (t.filter (fun c => hexDigit c)).length = 32

/-- The lowercase dashed 8-4-4-4-12 grouping of a 32-char hex list. -/
def specDashedLower (hexChars : List Char) : String :=
  let l := hexChars.map jsCharLower
  String.mk (l.take 8 ++ '-' :: ((l.drop 8).take 4) ++ '-' :: ((l.drop 12).take 4)
    ++ '-' :: ((l.drop 16).take 4) ++ '-' :: l.drop 20)

/-- The ids (normalized) of the `results` array of a children page. -/
def resultNormalizedIds (r : JsValue) : Option (List (Option String)) :=
  match r.getField "results" with
  | some (JsValue.arr res) =>
    some (res.map (fun b => normalizePageOrBlockId ((b.getField "id").getD .undef)))
  | _ => none

/-- Spec wording (C7): the page is the slice
`[start_index, start_index + page_size)` of the parent's content, where
`start_index` is the position at which the cursor was found; `none` when
the cursor is not found. -/
def claimChildrenSliceIds (childIds : List String) (cursor : String)
    (pageSize : Int) : Option (List String) :=
  match listIndexOf childIds cursor with
  | none => none
  | some i => some ((childIds.drop i).take pageSize.toNat)

/-- The page size `getBlockChildren` effectively uses (amended C7): a
positive numeric `page_size` is capped at `max_page_size`; everything else
(missing, unparsable, zero or negative) falls back to `max_page_size`. -/
def effectivePageSize (pageSizeField : JsValue) (maxPageSize : Int) : Int :=
  let raw : Option Int :=
    match pageSizeField with
    | .num n => some n
    | v => jsParseInt (jsToString (nullishCoalesce v (.str "")))
  match raw with
  | some n => if 0 < n then min n maxPageSize else maxPageSize
  | none => maxPageSize

/-- A content item that is a text item carrying a string payload. -/
def isTextContentItem (item : JsValue) : Bool :=
  match item.getField "type", item.getField "text" with
  | some (JsValue.str "text"), some (JsValue.str _) => true
  | _, _ => false

/-- Spec wording (C5): `is_error == false`, exactly one text content item,
its text parses as JSON, and the parsed object has one of
`results`/`users`/`items` as an empty array. -/
def claimEmptyRead (result : JsValue) : Bool :=
  (match result.getField "isError" with
   | some (JsValue.bool false) => true
   | _ => false)
  && (match result.getField "content" with
      | some (JsValue.arr items) =>
        (match items.filter isTextContentItem with
         | [item] =>
           (match item.getField "text" with
            | some (JsValue.str t) =>
              (match jsonParse t with
               | some parsed =>
                 hasEmptyArrayField parsed "results"
                   || hasEmptyArrayField parsed "users"
                   || hasEmptyArrayField parsed "items"
               | none => false)
            | _ => false)
         | _ => false)
      | _ => false)

/-- The JSON parse of a text content item (`none` when the item is not a
text item with a string payload, or its text does not parse). -/
def parsesAsJson (item : JsValue) : Option JsValue :=
  match item.getField "type", item.getField "text" with
  | some (JsValue.str "text"), some (JsValue.str t) => jsonParse t
  | _, _ => none

/-- Amended C5: the result is an object/array, `is_error` is not strictly
`true`, and the first content item whose text parses as JSON parses to an
object with one of `results`/`users`/`items` as an empty array. -/
def amendedEmptyRead (result : JsValue) : Bool :=
  (match result with
   | .obj _ | .arr _ => true
   | _ => false)
  && !(isErrorToolResult result)
  && (match result.getField "content" with
      | some (JsValue.arr items) =>
        (match (items.filterMap parsesAsJson).head? with
         | some parsed =>
           (match parsed with
            | .obj _ | .arr _ =>
              hasEmptyArrayField parsed "results"
                || hasEmptyArrayField parsed "users"
                || hasEmptyArrayField parsed "items"
            | _ => false)
         | none => false)
      | _ => false)

/-! ## Concrete fixtures for the block-children claims -/

/-- A constant stand-in for `new Date(n).toISOString()`. -/
def fixIso : Int → String := fun _ => "1970-01-01T00:00:00.000Z"

/-- First child id, undashed. -/
def fixIdA : String := "aaaaaaaaaaaaaaaaaaaaaaaaaaaaaaaa"

/-- Second child id, undashed. -/
def fixIdB : String := "bbbbbbbbbbbbbbbbbbbbbbbbbbbbbbbb"

/-- First child id in canonical dashed form. -/
def fixDashedA : String := "aaaaaaaa-aaaa-aaaa-aaaa-aaaaaaaaaaaa"

/-- Second child id in canonical dashed form. -/
def fixDashedB : String := "bbbbbbbb-bbbb-bbbb-bbbb-bbbbbbbbbbbb"

/-- A parent row whose content lists the two child ids. -/
def fixParentRow : BlockRow :=
  { id := .str fixDashedA, type := .str "page", created_time := .num 0,
    last_edited_time := .num 0, alive := .num 1,
    properties := .str "\x7b\x7d",
    content := .str ("[\"" ++ fixIdA ++ "\",\"" ++ fixIdB ++ "\"]") }

/-- A stored child row for the first child. -/
def fixRowA : BlockRow :=
  { id := .str fixDashedA, type := .str "text", created_time := .num 0,
    last_edited_time := .num 0, alive := .num 1,
    properties := .str "\x7b\x7d", content := .str "[]" }

/-- A stored child row for the second child. -/
def fixRowB : BlockRow :=
  { id := .str fixDashedB, type := .str "text", created_time := .num 0,
    last_edited_time := .num 0, alive := .num 1,
    properties := .str "\x7b\x7d", content := .str "[]" }

/-- `get-block-children` params asking for one child per page. -/
def fixParamsPage1 : List (String × JsValue) :=
  [("block_id", .str fixIdA), ("page_size", .num 1)]

/-- The page those params produce. -/
def fixPage1 : JsValue :=
  (getBlockChildren 100 fixIso fixParamsPage1 [fixParentRow]
    [fixRowA, fixRowB]).getD .null

/-- `get-block-children` params with the first child as cursor and a
`page_size` of 2. -/
def fixParamsCursorA : List (String × JsValue) :=
  [("block_id", .str fixIdA), ("start_cursor", .str fixIdA),
   ("page_size", .num 2)]

/-- The page those params produce. -/
def fixPageAfterA : JsValue :=
  (getBlockChildren 100 fixIso fixParamsCursorA [fixParentRow]
    [fixRowA, fixRowB]).getD .null

/-! ## Helper lemmas -/

theorem mapGet_mapSet_self {V : Type} (l : CacheMap V) (k : String)
    (e : CacheEntry V) : mapGet (mapSet l k e) k = some e := by
  induction l with
  | nil => simp [mapSet, mapGet, List.find?]
  | cons kv rest ih =>
    by_cases h : kv.1 = k
    · simp [mapSet, h, mapGet, List.find?]
    · simp only [mapSet, if_neg h]
      simpa [mapGet, List.find?, h] using ih

theorem mapGet_mapDeleteKey_self {V : Type} (l : CacheMap V) (k : String) :
    mapGet (mapDeleteKey l k) k = none := by
  rw [mapGet, mapDeleteKey]
  have h : List.find? (fun kv => kv.1 = k)
      (List.filter (fun kv => kv.1 ≠ k) l) = none := by
    rw [List.find?_eq_none]
    intro x hx
    have hne := (List.mem_filter.mp hx).2
    simp only [ne_eq, decide_not, Bool.not_eq_true', decide_eq_false_iff_not] at hne
    simp [hne]
  rw [h]
  rfl

theorem substrB_append_right (pre pat : List Char) :
    substrB pat (pre ++ pat) = true := by
  unfold substrB
  apply List.any_eq_true.mpr
  refine ⟨pat, ?_, ?_⟩
  · rw [List.mem_tails]
    exact List.suffix_append pre pat
  · rw [List.isPrefixOf_iff_prefix]

/-! ## Claim C6 — remote backend reconnect-failure error -/

/-- C6 counterexample: when the first call and the reconnect both fail, the
thrown message carries the reconnect failure but not the original call
failure's message, so the claim that the message "includes both the
original call failure and the reconnect failure" is false at this input. -/
theorem backendCallTool_reconnect_error_counterexample :
    backendCallToolFlow "official" (.error "ECONNRESET original failure")
        (.error "cannot reconnect") (.ok .null)
      = .error "official backend call failed and reconnect also failed: cannot reconnect"
    ∧ substrB "ECONNRESET original failure".toList
        "official backend call failed and reconnect also failed: cannot reconnect".toList
      = false := by
  exact ⟨rfl, by decide⟩

/-- C6 (amended): on a failed call whose reconnect also fails (including a
reconnect deadline expiry, which surfaces as a reconnect failure), the
backend throws an error whose message states that the backend call failed
and includes the reconnect failure's message; the original call failure's
message is not included. -/
theorem backendCallTool_reconnect_error_message (name ferr rerr : String)
    (second : Except String JsValue) :
    backendCallToolFlow name (.error ferr) (.error rerr) second
      = .error (name ++ " backend call failed and reconnect also failed: " ++ rerr)
    ∧ substrB rerr.toList
        (name ++ " backend call failed and reconnect also failed: " ++ rerr).toList
      = true := by
  refine ⟨rfl, ?_⟩
  have h : (name ++ " backend call failed and reconnect also failed: " ++ rerr).toList
      = (name ++ " backend call failed and reconnect also failed: ").toList ++ rerr.toList := by
    simp [String.toList, String.data_append]
  rw [h]
  exact substrB_append_right _ _

/-! ## Claim C4 — unknown / non-allowlisted tool handling -/

/-- C4 counterexample: a name resolving to no operation makes the handler
throw `Method <name> not found` instead of returning a typed error result
with `is_error = true` (`.error` is a thrown exception, not a result). -/
theorem callTool_unknown_tool_throws_counterexample :
    (handleCallTool
      { openApiLookup := [("retrieve-a-page",
          { method := "get", path := "/v1/pages/p", operationId := some "retrieve-a-page" })]
        toolNameAliases := []
        digest := fun _ => ""
        authFingerprint := ""
        baseUrl := "https://api.notion.com"
        ttlMs := 30000
        maxEntries := 300
        deserializeFuel := 8 }
      (some []) 0 (.ok .null) (.ok .null) "nope" none).outcome
      = .error "Method nope not found" := by
  rfl

/-- C4 (amended): when the name resolves (directly or via alias) to an
operation that is not allowlisted, the handler returns the
`READ_ONLY_OPERATION_BLOCKED` result with `isError = true` and touches
nothing; when the name resolves to no operation, the handler throws
`Method <name> not found` rather than returning a result. -/
theorem callTool_unresolved_and_blocked (env : ProxyEnv)
    (cache0 : Option (CacheMap JsValue)) (now : Int)
    (localOutcome : Except Unit JsValue) (httpOutcome : Except HttpFailure JsValue)
    (name : String) (params : Option (List (String × JsValue))) :
    (findOperation env.openApiLookup env.toolNameAliases name = none →
      handleCallTool env cache0 now localOutcome httpOutcome name params =
        { outcome := .error ("Method " ++ name ++ " not found")
          responseCache := cache0
          responseCacheRead := false
          localCacheQueried := false
          httpParams := none })
    ∧ (∀ op, findOperation env.openApiLookup env.toolNameAliases name = some op →
        isOperationAllowlisted op = false →
        handleCallTool env cache0 now localOutcome httpOutcome name params =
          { outcome := .ok (createReadOnlyBlockedResponse name op)
            responseCache := cache0
            responseCacheRead := false
            localCacheQueried := false
            httpParams := none }
        ∧ (createReadOnlyBlockedResponse name op).getField "isError"
            = some (.bool true)) := by
  constructor
  · intro h
    unfold handleCallTool
    rw [h]
  · intro op hop hblock
    constructor
    · unfold handleCallTool
      rw [hop]
      simp [hblock]
    · rfl

/-- C4 witness: the amended theorem applied to a concrete unresolved name
and a concrete non-allowlisted operation. -/
theorem callTool_unresolved_and_blocked_witness :
    (handleCallTool
      { openApiLookup := [("post-page",
          { method := "post", path := "/v1/pages", operationId := some "post-page" })]
        toolNameAliases := []
        digest := fun _ => ""
        authFingerprint := ""
        baseUrl := "b"
        ttlMs := 30000
        maxEntries := 300
        deserializeFuel := 8 }
      none 0 (.ok .null) (.ok .null) "missing-tool" none =
        { outcome := .error "Method missing-tool not found"
          responseCache := none
          responseCacheRead := false
          localCacheQueried := false
          httpParams := none })
    ∧ (handleCallTool
      { openApiLookup := [("post-page",
          { method := "post", path := "/v1/pages", operationId := some "post-page" })]
        toolNameAliases := []
        digest := fun _ => ""
        authFingerprint := ""
        baseUrl := "b"
        ttlMs := 30000
        maxEntries := 300
        deserializeFuel := 8 }
      none 0 (.ok .null) (.ok .null) "post-page" none =
        { outcome := .ok (createReadOnlyBlockedResponse "post-page"
            { method := "post", path := "/v1/pages", operationId := some "post-page" })
          responseCache := none
          responseCacheRead := false
          localCacheQueried := false
          httpParams := none }) := by
  constructor
  · exact (callTool_unresolved_and_blocked _ none 0 (.ok .null) (.ok .null)
      "missing-tool" none).1 rfl
  · exact (((callTool_unresolved_and_blocked
      { openApiLookup := [("post-page",
          { method := "post", path := "/v1/pages", operationId := some "post-page" })]
        toolNameAliases := []
        digest := fun _ => ""
        authFingerprint := ""
        baseUrl := "b"
        ttlMs := 30000
        maxEntries := 300
        deserializeFuel := 8 }
      none 0 (.ok .null) (.ok .null) "post-page" none).2
      { method := "post", path := "/v1/pages", operationId := some "post-page" }
      rfl rfl)).1

/-! ## Claim C10 — `set` on an expired-but-present entry keeps `created_at` -/

/-- C10: an entry still present in the map keeps its `createdAt` through the
insert/overwrite step of `set`, even when it is already expired; after an
intervening `get` has observed the expiry (deleting the entry), a later
`set` starts `createdAt` at the current clock reading. -/
theorem readResponseCache_expired_set_keeps_createdAt {V : Type} (ttlMs : Int)
    (l : CacheMap V) (k : String) (v v2 : V) (now now2 : Int) (e : CacheEntry V)
    (hget : mapGet l k = some e) (hexp : e.updatedAt + ttlMs ≤ now) :
    mapGet (ReadResponseCache.insertStep l k v now) k
      = some { value := v, createdAt := e.createdAt, updatedAt := now, accessedAt := now }
    ∧ (ReadResponseCache.get ttlMs l k now).1 = none
    ∧ mapGet (ReadResponseCache.get ttlMs l k now).2 k = none
    ∧ mapGet (ReadResponseCache.insertStep (ReadResponseCache.get ttlMs l k now).2 k v2 now2) k
      = some { value := v2, createdAt := now2, updatedAt := now2, accessedAt := now2 } := by
  have hexp' : ReadResponseCache.isExpired e ttlMs now := hexp
  have hfresh : ReadResponseCache.getEntryIfFresh ttlMs l k now = (none, mapDeleteKey l k) := by
    unfold ReadResponseCache.getEntryIfFresh
    rw [hget]
    simp [hexp']
  have hgetRun : ReadResponseCache.get ttlMs l k now = (none, mapDeleteKey l k) := by
    unfold ReadResponseCache.get
    rw [hfresh]
  refine ⟨?_, ?_, ?_, ?_⟩
  · unfold ReadResponseCache.insertStep
    rw [hget]
    exact mapGet_mapSet_self l k _
  · rw [hgetRun]
  · rw [hgetRun]
    exact mapGet_mapDeleteKey_self l k
  · rw [hgetRun]
    unfold ReadResponseCache.insertStep
    rw [mapGet_mapDeleteKey_self l k]
    exact mapGet_mapSet_self _ k _

/-- C10 witness: a present-but-expired entry (`updatedAt 5`, `ttl 10`,
clock `100`) keeps `createdAt 5` through `insertStep`; after a `get` at
`100` has deleted it, a `set` at `200` restarts `createdAt`. -/
theorem readResponseCache_expired_set_keeps_createdAt_witness :
    mapGet (ReadResponseCache.insertStep
        [("k", { value := true, createdAt := 5, updatedAt := 5, accessedAt := 5 })]
        "k" false 100) "k"
      = some { value := false, createdAt := 5, updatedAt := 100, accessedAt := 100 }
    ∧ (ReadResponseCache.get 10
        [("k", { value := true, createdAt := 5, updatedAt := 5, accessedAt := 5 })]
        "k" 100).1 = none
    ∧ mapGet (ReadResponseCache.get 10
        [("k", { value := true, createdAt := 5, updatedAt := 5, accessedAt := 5 })]
        "k" 100).2 "k" = none
    ∧ mapGet (ReadResponseCache.insertStep
        (ReadResponseCache.get 10
          [("k", { value := true, createdAt := 5, updatedAt := 5, accessedAt := 5 })]
          "k" 100).2 "k" true 200) "k"
      = some { value := true, createdAt := 200, updatedAt := 200, accessedAt := 200 } :=
  readResponseCache_expired_set_keeps_createdAt 10
    [("k", { value := true, createdAt := 5, updatedAt := 5, accessedAt := 5 })]
    "k" false true 100 200
    { value := true, createdAt := 5, updatedAt := 5, accessedAt := 5 }
    rfl (by norm_num)

/-! ## Claim C1 — `set` capacity bound, `created_at` preservation, LRU order -/

theorem mem_keys_mapSet {V : Type} (l : CacheMap V) (k x : String)
    (e : CacheEntry V) (hx : x ∈ (mapSet l k e).map Prod.fst) :
    x ∈ l.map Prod.fst ∨ x = k := by
  induction l with
  | nil =>
    simp [mapSet] at hx
    simp [hx]
  | cons kv rest ih =>
    by_cases h : kv.1 = k
    · simp only [mapSet, if_pos h, List.map_cons, List.mem_cons] at hx
      rcases hx with hx | hx
      · right; exact hx
      · left; exact List.mem_cons_of_mem _ hx
    · simp only [mapSet, if_neg h, List.map_cons, List.mem_cons] at hx
      rcases hx with hx | hx
      · left; simp [hx]
      · rcases ih hx with h2 | h2
        · left; exact List.mem_cons_of_mem _ h2
        · right; exact h2

theorem nodup_keys_mapSet {V : Type} (l : CacheMap V) (k : String)
    (e : CacheEntry V) (hnd : (l.map Prod.fst).Nodup) :
    ((mapSet l k e).map Prod.fst).Nodup := by
  induction l with
  | nil => simp [mapSet]
  | cons kv rest ih =>
    simp only [List.map_cons, List.nodup_cons] at hnd
    by_cases h : kv.1 = k
    · simp only [mapSet, if_pos h, List.map_cons, List.nodup_cons]
      exact ⟨h ▸ hnd.1, hnd.2⟩
    · simp only [mapSet, if_neg h, List.map_cons, List.nodup_cons]
      refine ⟨?_, ih hnd.2⟩
      intro hmem
      rcases mem_keys_mapSet rest k kv.1 e hmem with h2 | h2
      · exact hnd.1 h2
      · exact h h2

theorem nodup_keys_filter {V : Type} (p : String × CacheEntry V → Bool)
    (l : CacheMap V) (hnd : (l.map Prod.fst).Nodup) :
    ((l.filter p).map Prod.fst).Nodup :=
  hnd.sublist (List.Sublist.map Prod.fst (List.filter_sublist l))

theorem eq_of_mem_of_nodup_keys {V : Type} {l : CacheMap V}
    (hnd : (l.map Prod.fst).Nodup) {a b : String × CacheEntry V}
    (ha : a ∈ l) (hb : b ∈ l) (hab : a.1 = b.1) : a = b := by
  induction l with
  | nil => cases ha
  | cons kv rest ih =>
    simp only [List.map_cons, List.nodup_cons] at hnd
    rcases List.mem_cons.mp ha with rfl | ha2
    · rcases List.mem_cons.mp hb with rfl | hb2
      · rfl
      · exact absurd (hab ▸ List.mem_map_of_mem Prod.fst hb2) hnd.1
    · rcases List.mem_cons.mp hb with rfl | hb2
      · exact absurd (hab ▸ List.mem_map_of_mem Prod.fst ha2) hnd.1
      · exact ih hnd.2 ha2 hb2

theorem length_filter_not_le_of_countP {α : Type} (p : α → Bool) (l : List α)
    (n : Nat) (h : n ≤ l.countP p) :
    (l.filter (fun a => !(p a))).length ≤ l.length - n := by
  have h1 : l.length = l.countP p + l.countP (fun a => !(p a)) := by
    rw [List.length_eq_countP_add_countP p]
    congr 1
    apply List.countP_congr
    intro a _
    simp
  have h2 : (l.filter (fun a => !(p a))).length = l.countP (fun a => !(p a)) :=
    (List.countP_eq_length_filter _ _).symm
  omega

theorem pruneMaxEntries_length_le {V : Type} (maxEntries : Nat) (l : CacheMap V)
    (hover : maxEntries < l.length) :
    (ReadResponseCache.pruneMaxEntries maxEntries l).length ≤ maxEntries := by
  have hneg : ¬ l.length ≤ maxEntries := by omega
  unfold ReadResponseCache.pruneMaxEntries
  rw [if_neg hneg]
  show (List.filter
    (fun kv => ¬ kv.1 ∈ ((List.insertionSort ReadResponseCache.entryLe l).take
      (l.length - maxEntries)).map Prod.fst) l).length ≤ maxEntries
  set eK := ((List.insertionSort ReadResponseCache.entryLe l).take
    (l.length - maxEntries)).map Prod.fst with heK
  have hfc : List.filter (fun kv => ¬ kv.1 ∈ eK) l
      = List.filter (fun kv => !(decide (kv.1 ∈ eK))) l := by
    apply List.filter_congr
    intro a _
    simp
  rw [hfc]
  have hperm : (List.insertionSort ReadResponseCache.entryLe l).Perm l :=
    List.perm_insertionSort _ l
  have hcount : (l.length - maxEntries)
      ≤ l.countP (fun kv => decide (kv.1 ∈ eK)) := by
    rw [← hperm.countP_eq]
    conv_rhs =>
      rw [← List.take_append_drop (l.length - maxEntries)
        (List.insertionSort ReadResponseCache.entryLe l)]
    rw [List.countP_append]
    have htake : ((List.insertionSort ReadResponseCache.entryLe l).take
        (l.length - maxEntries)).countP (fun kv => decide (kv.1 ∈ eK))
        = ((List.insertionSort ReadResponseCache.entryLe l).take
          (l.length - maxEntries)).length := by
      apply List.countP_eq_length.mpr
      intro kv hkv
      simp only [decide_eq_true_eq]
      exact heK ▸ List.mem_map_of_mem Prod.fst hkv
    have htakelen : ((List.insertionSort ReadResponseCache.entryLe l).take
        (l.length - maxEntries)).length = l.length - maxEntries := by
      rw [List.length_take, hperm.length_eq]
      omega
    omega
  have hbound : (List.filter (fun kv => !decide (kv.1 ∈ eK)) l).length
      ≤ l.length - (l.length - maxEntries) :=
    length_filter_not_le_of_countP
      (fun kv => decide (kv.1 ∈ eK)) l (l.length - maxEntries) hcount
  omega

theorem pruneMaxEntries_evict_order {V : Type} (maxEntries : Nat)
    (l : CacheMap V) (hnd : (l.map Prod.fst).Nodup)
    (kv kv' : String × CacheEntry V) (hkv : kv ∈ l)
    (hkvOut : kv ∉ ReadResponseCache.pruneMaxEntries maxEntries l)
    (hkvIn : kv' ∈ ReadResponseCache.pruneMaxEntries maxEntries l) :
    ReadResponseCache.entryLe kv kv' := by
  unfold ReadResponseCache.pruneMaxEntries at hkvOut hkvIn
  by_cases hle : l.length ≤ maxEntries
  · rw [if_pos hle] at hkvOut
    exact absurd hkv hkvOut
  · rw [if_neg hle] at hkvOut hkvIn
    set overflow := l.length - maxEntries with hoverflow
    set sorted := List.insertionSort ReadResponseCache.entryLe l with hsortdef
    set evictKeys := (sorted.take overflow).map Prod.fst with hevict
    have hperm : sorted.Perm l := List.perm_insertionSort _ l
    -- kv was filtered out, so its key is evicted
    have hkvKey : kv.1 ∈ evictKeys := by
      by_contra hc
      refine hkvOut (List.mem_filter.mpr ⟨hkv, ?_⟩)
      rw [decide_eq_true_eq]
      exact hc
    -- hence kv itself is an element of the taken prefix (keys are unique)
    have hkvTake : kv ∈ sorted.take overflow := by
      rcases List.mem_map.mp (hevict ▸ hkvKey) with ⟨kv0, hkv0, hkey⟩
      have hkv0l : kv0 ∈ l := hperm.mem_iff.mp (List.mem_of_mem_take hkv0)
      have heq : kv0 = kv := eq_of_mem_of_nodup_keys hnd hkv0l hkv hkey
      exact heq ▸ hkv0
    -- kv' survived, so it is in the dropped suffix
    have hkv'l : kv' ∈ l := (List.mem_filter.mp hkvIn).1
    have hkv'Key : ¬ kv'.1 ∈ evictKeys := by
      have h2 := (List.mem_filter.mp hkvIn).2
      rw [decide_eq_true_eq] at h2
      exact h2
    have hkv'sorted : kv' ∈ sorted := hperm.mem_iff.mpr hkv'l
    have hkv'Drop : kv' ∈ sorted.drop overflow := by
      rcases (List.mem_append.mp
        ((List.take_append_drop overflow sorted) ▸ hkv'sorted)) with h | h
      · exact absurd (hevict ▸ List.mem_map_of_mem Prod.fst h) hkv'Key
      · exact h
    -- sortedness carries the comparator across the take/drop split
    have hs : List.Sorted ReadResponseCache.entryLe sorted :=
      List.sorted_insertionSort _ l
    have hpw : List.Pairwise ReadResponseCache.entryLe
        (sorted.take overflow ++ sorted.drop overflow) := by
      rw [List.take_append_drop]
      exact hs
    exact (List.pairwise_append.mp hpw).2.2 kv hkvTake kv' hkv'Drop

/-- C1: `set(k, v)` (i) is the insert/overwrite step — which preserves the
original `createdAt` of an existing entry and stamps `updatedAt` and
`accessedAt` with the clock — followed by expiry pruning and, when still
over capacity, overflow eviction; (ii) leaves at most `maxEntries` entries;
(iii) every evicted entry precedes every surviving entry in the ascending
`(accessedAt, updatedAt, createdAt)` order. -/
theorem readResponseCache_set_spec {V : Type} (ttlMs : Int) (maxEntries : Nat)
    (l : CacheMap V) (k : String) (v : V) (now : Int)
    (hnd : (l.map Prod.fst).Nodup) :
    ReadResponseCache.set ttlMs maxEntries l k v now
      = (if maxEntries <
            (ReadResponseCache.pruneExpired ttlMs now
              (ReadResponseCache.insertStep l k v now)).length
         then ReadResponseCache.pruneMaxEntries maxEntries
            (ReadResponseCache.pruneExpired ttlMs now
              (ReadResponseCache.insertStep l k v now))
         else ReadResponseCache.pruneExpired ttlMs now
            (ReadResponseCache.insertStep l k v now))
    ∧ (ReadResponseCache.set ttlMs maxEntries l k v now).length ≤ maxEntries
    ∧ mapGet (ReadResponseCache.insertStep l k v now) k
        = some { value := v
                 createdAt := ((mapGet l k).map (·.createdAt)).getD now
                 updatedAt := now
                 accessedAt := now }
    ∧ (∀ kv, kv ∈ ReadResponseCache.pruneExpired ttlMs now
          (ReadResponseCache.insertStep l k v now) →
        kv ∉ ReadResponseCache.set ttlMs maxEntries l k v now →
        ∀ kv', kv' ∈ ReadResponseCache.set ttlMs maxEntries l k v now →
        ReadResponseCache.entryLe kv kv') := by
  have hndPruned : ((ReadResponseCache.pruneExpired ttlMs now
      (ReadResponseCache.insertStep l k v now)).map Prod.fst).Nodup := by
    apply nodup_keys_filter
    exact nodup_keys_mapSet l k _ hnd
  have hset : ReadResponseCache.set ttlMs maxEntries l k v now
      = (if maxEntries <
            (ReadResponseCache.pruneExpired ttlMs now
              (ReadResponseCache.insertStep l k v now)).length
         then ReadResponseCache.pruneMaxEntries maxEntries
            (ReadResponseCache.pruneExpired ttlMs now
              (ReadResponseCache.insertStep l k v now))
         else ReadResponseCache.pruneExpired ttlMs now
            (ReadResponseCache.insertStep l k v now)) := rfl
  refine ⟨hset, ?_, ?_, ?_⟩
  · rw [hset]
    by_cases hover : maxEntries <
        (ReadResponseCache.pruneExpired ttlMs now
          (ReadResponseCache.insertStep l k v now)).length
    · rw [if_pos hover]
      exact pruneMaxEntries_length_le maxEntries _ hover
    · rw [if_neg hover]
      omega
  · unfold ReadResponseCache.insertStep
    exact mapGet_mapSet_self l k _
  · intro kv hkv hkvOut kv' hkvIn
    rw [hset] at hkvOut hkvIn
    by_cases hover : maxEntries <
        (ReadResponseCache.pruneExpired ttlMs now
          (ReadResponseCache.insertStep l k v now)).length
    · rw [if_pos hover] at hkvOut hkvIn
      exact pruneMaxEntries_evict_order maxEntries _ hndPruned kv kv' hkv hkvOut hkvIn
    · rw [if_neg hover] at hkvOut
      exact absurd hkv hkvOut

/-- C1 witness: the conjunction instantiated at a one-entry state over
capacity 1, where the new insert evicts the least-recently-accessed entry. -/
theorem readResponseCache_set_spec_witness :
    ReadResponseCache.set 10 1
        [("a", { value := (0 : Nat), createdAt := 0, updatedAt := 95, accessedAt := 95 })]
        "b" 7 100
      = (if 1 <
            (ReadResponseCache.pruneExpired 10 100
              (ReadResponseCache.insertStep
                [("a", { value := 0, createdAt := 0, updatedAt := 95, accessedAt := 95 })]
                "b" 7 100)).length
         then ReadResponseCache.pruneMaxEntries 1
            (ReadResponseCache.pruneExpired 10 100
              (ReadResponseCache.insertStep
                [("a", { value := 0, createdAt := 0, updatedAt := 95, accessedAt := 95 })]
                "b" 7 100))
         else ReadResponseCache.pruneExpired 10 100
            (ReadResponseCache.insertStep
              [("a", { value := 0, createdAt := 0, updatedAt := 95, accessedAt := 95 })]
              "b" 7 100))
    ∧ (ReadResponseCache.set 10 1
        [("a", { value := 0, createdAt := 0, updatedAt := 95, accessedAt := 95 })]
        "b" 7 100).length ≤ 1
    ∧ mapGet (ReadResponseCache.insertStep
          [("a", { value := 0, createdAt := 0, updatedAt := 95, accessedAt := 95 })]
          "b" 7 100) "b"
        = some { value := 7
                 createdAt := ((mapGet
                    [("a", { value := 0, createdAt := 0, updatedAt := 95, accessedAt := 95 })]
                    "b").map (·.createdAt)).getD 100
                 updatedAt := 100
                 accessedAt := 100 }
    ∧ (∀ kv, kv ∈ ReadResponseCache.pruneExpired 10 100
          (ReadResponseCache.insertStep
            [("a", { value := 0, createdAt := 0, updatedAt := 95, accessedAt := 95 })]
            "b" 7 100) →
        kv ∉ ReadResponseCache.set 10 1
          [("a", { value := 0, createdAt := 0, updatedAt := 95, accessedAt := 95 })]
          "b" 7 100 →
        ∀ kv', kv' ∈ ReadResponseCache.set 10 1
          [("a", { value := 0, createdAt := 0, updatedAt := 95, accessedAt := 95 })]
          "b" 7 100 →
        ReadResponseCache.entryLe kv kv') :=
  readResponseCache_set_spec 10 1
    [("a", { value := 0, createdAt := 0, updatedAt := 95, accessedAt := 95 })]
    "b" 7 100 (by simp)

/-! ## Claim C5 — empty-read detection -/

theorem parsesAsJson_of_not_truthy (item : JsValue) (h : item.truthy = false) :
    parsesAsJson item = none := by
  cases item <;> first
    | rfl
    | exact absurd h (by simp [JsValue.truthy])

theorem firstParsedTextItem_eq (items : List JsValue) :
    firstParsedTextItem items = ((items.filterMap parsesAsJson).head?).getD .null := by
  induction items with
  | nil => rfl
  | cons item rest ih =>
    by_cases ht : item.truthy = false
    · have hpj := parsesAsJson_of_not_truthy item ht
      simp only [firstParsedTextItem, if_pos ht, List.filterMap_cons, hpj]
      exact ih
    · simp only [firstParsedTextItem, if_neg ht, List.filterMap_cons]
      split
      · rename_i t h1 h2
        have hpj : parsesAsJson item = jsonParse t := by
          simp [parsesAsJson, h1, h2]
        rw [hpj]
        cases hjp : jsonParse t with
        | none => simpa using ih
        | some v => simp
      · rename_i hno
        have hpj : parsesAsJson item = none := by
          unfold parsesAsJson
          split
          · rename_i t h1 h2
            exact (hno t h1 h2).elim
          · rfl
        rw [hpj]
        exact ih

/-- C5 counterexample: a non-error result with two text items — the first
not JSON, the second `{"results":[]}` — is classified as an empty read by
the code, but the claim ("exactly one text content item") says it is not. -/
theorem looksEmptyReadResult_two_items_counterexample :
    looksEmptyReadResult (JsValue.obj
      [("isError", .bool false),
       ("content", .arr
         [.obj [("type", .str "text"), ("text", .str "oops")],
          .obj [("type", .str "text"),
                ("text", .str "\x7b\"results\":[]\x7d")]])]) = true
    ∧ claimEmptyRead (JsValue.obj
      [("isError", .bool false),
       ("content", .arr
         [.obj [("type", .str "text"), ("text", .str "oops")],
          .obj [("type", .str "text"),
                ("text", .str "\x7b\"results\":[]\x7d")]])]) = false := by
  exact ⟨rfl, rfl⟩

/-- C5 (amended): a result is classified as an empty read iff it is an
object/array, its `is_error` is not strictly `true`, its `content` is an
array, and the first content item whose text parses as JSON parses to an
object (or array) with one of `results`/`users`/`items` equal to an array
of length 0. -/
theorem looksEmptyReadResult_characterization (r : JsValue) :
    looksEmptyReadResult r = amendedEmptyRead r := by
  cases r with
  | obj l =>
    unfold looksEmptyReadResult amendedEmptyRead maybeParseResultJson
    by_cases hie : isErrorToolResult (JsValue.obj l)
    · simp [hie]
    · rw [if_neg hie]
      simp only [Bool.not_eq_true] at hie
      simp only [hie, Bool.not_false, Bool.true_and]
      cases hc : (JsValue.obj l).getField "content" with
      | none => simp [hc]
      | some v =>
        cases v with
        | arr items =>
          simp only [hc, firstParsedTextItem_eq]
          cases hh : (items.filterMap parsesAsJson).head? with
          | none => simp [hh]
          | some parsed => cases parsed <;> simp [hh]
        | null => simp [hc]
        | undef => simp [hc]
        | bool b => simp [hc]
        | num n => simp [hc]
        | str s => simp [hc]
        | obj l2 => simp [hc]
  | arr xs =>
    unfold looksEmptyReadResult amendedEmptyRead maybeParseResultJson
    by_cases hie : isErrorToolResult (JsValue.arr xs)
    · simp [hie]
    · rw [if_neg hie]
      simp only [Bool.not_eq_true] at hie
      simp only [hie, Bool.not_false, Bool.true_and]
      cases hc : (JsValue.arr xs).getField "content" with
      | none => simp [hc]
      | some v =>
        cases v with
        | arr items =>
          simp only [hc, firstParsedTextItem_eq]
          cases hh : (items.filterMap parsesAsJson).head? with
          | none => simp [hh]
          | some parsed => cases parsed <;> simp [hh]
        | null => simp [hc]
        | undef => simp [hc]
        | bool b => simp [hc]
        | num n => simp [hc]
        | str s => simp [hc]
        | obj l2 => simp [hc]
  | null => rfl
  | undef => rfl
  | bool b => rfl
  | num n => rfl
  | str s => rfl

/-! ## Claim C9 — ID normalization -/

theorem hexDigitLower_jsCharLower (c : Char) :
    hexDigitLower (jsCharLower c) = hexDigit c := by
  have e0 : ('0' : Char).toNat = 48 := rfl
  have e9 : ('9' : Char).toNat = 57 := rfl
  have ea : ('a' : Char).toNat = 97 := rfl
  have ef : ('f' : Char).toNat = 102 := rfl
  have eA : ('A' : Char).toNat = 65 := rfl
  have eF : ('F' : Char).toNat = 70 := rfl
  unfold jsCharLower
  by_cases h : 'A' ≤ c ∧ c ≤ 'Z'
  · rw [if_pos h]
    obtain ⟨h1, h2⟩ := h
    have hA : 65 ≤ c.toNat := h1
    have hZ : c.toNat ≤ 90 := h2
    have hv : (c.toNat + 32).isValidChar := by left; omega
    have hval : (Char.ofNat (c.toNat + 32)).toNat = c.toNat + 32 := by
      rw [Char.ofNat, dif_pos hv]; rfl
    unfold hexDigitLower hexDigit
    apply decide_eq_decide.mpr
    constructor
    · rintro (⟨g1, g2⟩ | ⟨g1, g2⟩)
      · have n1 : ('0' : Char).toNat ≤ (Char.ofNat (c.toNat + 32)).toNat := g1
        have n2 : (Char.ofNat (c.toNat + 32)).toNat ≤ ('9' : Char).toNat := g2
        rw [hval, e0] at n1; rw [hval, e9] at n2
        omega
      · have n1 : ('a' : Char).toNat ≤ (Char.ofNat (c.toNat + 32)).toNat := g1
        have n2 : (Char.ofNat (c.toNat + 32)).toNat ≤ ('f' : Char).toNat := g2
        rw [hval, ea] at n1; rw [hval, ef] at n2
        right
        right
        refine ⟨?_, ?_⟩
        · show ('A' : Char).toNat ≤ c.toNat
          rw [eA]; omega
        · show c.toNat ≤ ('F' : Char).toNat
          rw [eF]; omega
    · rintro (⟨g1, g2⟩ | ⟨g1, g2⟩ | ⟨g1, g2⟩)
      · have n1 : ('0' : Char).toNat ≤ c.toNat := g1
        have n2 : c.toNat ≤ ('9' : Char).toNat := g2
        rw [e0] at n1; rw [e9] at n2
        omega
      · have n1 : ('a' : Char).toNat ≤ c.toNat := g1
        have n2 : c.toNat ≤ ('f' : Char).toNat := g2
        rw [ea] at n1; rw [ef] at n2
        omega
      · have n1 : ('A' : Char).toNat ≤ c.toNat := g1
        have n2 : c.toNat ≤ ('F' : Char).toNat := g2
        rw [eA] at n1; rw [eF] at n2
        right
        refine ⟨?_, ?_⟩
        · show ('a' : Char).toNat ≤ (Char.ofNat (c.toNat + 32)).toNat
          rw [ea, hval]; omega
        · show (Char.ofNat (c.toNat + 32)).toNat ≤ ('f' : Char).toNat
          rw [ef, hval]; omega
  · rw [if_neg h]
    have h2 : ¬(65 ≤ c.toNat ∧ c.toNat ≤ 90) := fun hc => h ⟨hc.1, hc.2⟩
    unfold hexDigitLower hexDigit
    apply decide_eq_decide.mpr
    constructor
    · rintro (⟨g1, g2⟩ | ⟨g1, g2⟩)
      · exact Or.inl ⟨g1, g2⟩
      · exact Or.inr (Or.inl ⟨g1, g2⟩)
    · rintro (⟨g1, g2⟩ | ⟨g1, g2⟩ | ⟨g1, g2⟩)
      · exact Or.inl ⟨g1, g2⟩
      · exact Or.inr ⟨g1, g2⟩
      · have n1 : ('A' : Char).toNat ≤ c.toNat := g1
        have n2 : c.toNat ≤ ('F' : Char).toNat := g2
        rw [eA] at n1; rw [eF] at n2
        omega

theorem hexDigit_ne_dash (c : Char) (h : hexDigit c = true) : c ≠ '-' := by
  intro he
  subst he
  exact absurd h (by decide)

theorem jsWs_eq_false_of_hexDigit (c : Char) (h : hexDigit c = true) :
    jsWs c = false := by
  unfold hexDigit at h
  rw [decide_eq_true_eq] at h
  unfold jsWs
  rw [decide_eq_false_iff_not]
  rintro (rfl | rfl | rfl | rfl | rfl | rfl) <;> exact absurd h (by decide)

theorem dropWhile_eq_self_of_all {α : Type} (p : α → Bool) (l : List α)
    (h : ∀ c ∈ l, p c = false) : l.dropWhile p = l := by
  cases l with
  | nil => rfl
  | cons a l2 =>
    rw [List.dropWhile_cons, h a (List.mem_cons_self a l2)]
    simp

theorem jsTrim_eq_self (s : String) (h : ∀ c ∈ s.toList, jsWs c = false) :
    jsTrim s = s := by
  unfold jsTrim
  rw [dropWhile_eq_self_of_all _ _ h]
  rw [dropWhile_eq_self_of_all _ _ (fun c hc => h c (List.mem_reverse.mp hc))]
  rw [List.reverse_reverse]
  obtain ⟨data⟩ := s
  rfl

theorem accept_eq_amended_core (t : List Char) :
    (decide (((t.filter (fun c => c ≠ '-')).map jsCharLower).length = 32
      ∧ ((t.filter (fun c => c ≠ '-')).map jsCharLower).all hexDigitLower))
    = (t.all (fun c => c = '-' || hexDigit c)
        && decide ((t.filter (fun c => hexDigit c)).length = 32)) := by
  by_cases hc : ((t.filter (fun c => c ≠ '-')).map jsCharLower).length = 32
      ∧ ((t.filter (fun c => c ≠ '-')).map jsCharLower).all hexDigitLower
  · obtain ⟨hlen, hall⟩ := hc
    have hhex : ∀ c ∈ t.filter (fun c => c ≠ '-'), hexDigit c = true := by
      intro c hcmem
      have h2 := List.all_eq_true.mp hall (jsCharLower c)
        (List.mem_map_of_mem _ hcmem)
      rw [hexDigitLower_jsCharLower] at h2
      exact h2
    have hdashhex : ∀ c ∈ t, (decide (c = '-') || hexDigit c) = true := by
      intro c hcm
      by_cases hd : c = '-'
      · simp [hd]
      · have hmem : c ∈ t.filter (fun c => c ≠ '-') :=
          List.mem_filter.mpr ⟨hcm, by simp [hd]⟩
        simp [hhex c hmem]
    have hfeq : t.filter (fun c => c ≠ '-') = t.filter (fun c => hexDigit c) := by
      apply List.filter_congr
      intro c hcm
      by_cases hd : c = '-'
      · subst hd
        decide
      · have h2 := hdashhex c hcm
        rw [Bool.or_eq_true] at h2
        rcases h2 with h2 | h2
        · exact absurd (of_decide_eq_true h2) hd
        · simp [hd, h2]
    have hL : (t.filter (fun c => hexDigit c)).length = 32 := by
      rw [← hfeq]
      rw [List.length_map] at hlen
      exact hlen
    have hA : t.all (fun c => c = '-' || hexDigit c) = true :=
      List.all_eq_true.mpr hdashhex
    rw [decide_eq_true ⟨hlen, hall⟩, hA, decide_eq_true hL]
    rfl
  · have hRfalse : (t.all (fun c => c = '-' || hexDigit c)
        && decide ((t.filter (fun c => hexDigit c)).length = 32)) = false := by
      by_contra hcon
      rw [Bool.not_eq_false, Bool.and_eq_true] at hcon
      obtain ⟨hA, hL⟩ := hcon
      have hdashhex := List.all_eq_true.mp hA
      have hfeq : t.filter (fun c => c ≠ '-') = t.filter (fun c => hexDigit c) := by
        apply List.filter_congr
        intro c hcm
        by_cases hd : c = '-'
        · subst hd
          decide
        · have h2 := hdashhex c hcm
          rw [Bool.or_eq_true] at h2
          rcases h2 with h2 | h2
          · exact absurd (of_decide_eq_true h2) hd
          · simp [hd, h2]
      have hlen : ((t.filter (fun c => c ≠ '-')).map jsCharLower).length = 32 := by
        rw [List.length_map, hfeq]
        exact of_decide_eq_true hL
      have hall : ((t.filter (fun c => c ≠ '-')).map jsCharLower).all hexDigitLower
          = true := by
        apply List.all_eq_true.mpr
        intro x hx
        rcases List.mem_map.mp hx with ⟨c, hcm, rfl⟩
        rw [hexDigitLower_jsCharLower]
        have hcm2 := hcm
        rw [hfeq] at hcm2
        exact (List.mem_filter.mp hcm2).2
      exact hc ⟨hlen, hall⟩
    rw [hRfalse, decide_eq_false hc]

theorem filter_ne_dash_of_hex (l : List Char) (h : ∀ c ∈ l, hexDigit c = true) :
    l.filter (fun c => c ≠ '-') = l := by
  apply List.filter_eq_self.mpr
  intro a ha
  simp [hexDigit_ne_dash a (h a ha)]

theorem filter_hex_of_hex (l : List Char) (h : ∀ c ∈ l, hexDigit c = true) :
    l.filter (fun c => hexDigit c) = l := by
  apply List.filter_eq_self.mpr
  intro a ha
  simp [h a ha]

/-- Part 1 of the C9 characterization: acceptance of string inputs. -/
theorem normalizeId_isSome_eq (s : String) :
    (normalizePageOrBlockId (JsValue.str s)).isSome = amendedAcceptsId s := by
  unfold normalizePageOrBlockId amendedAcceptsId
  have hcore := accept_eq_amended_core ((jsTrim s).toList)
  by_cases hc : (((jsTrim s).toList.filter (fun c => c ≠ '-')).map jsCharLower).length = 32
      ∧ (((jsTrim s).toList.filter (fun c => c ≠ '-')).map jsCharLower).all hexDigitLower
  · rw [decide_eq_true hc] at hcore
    simp only [if_pos hc, Option.isSome_some]
    exact hcore
  · rw [decide_eq_false hc] at hcore
    simp only [if_neg hc, Option.isSome_none]
    exact hcore

/-- Part 2a: a bare 32-hex-char string is accepted and mapped to its
lowercase dashed grouping. -/
theorem normalizeId_of_32hex (s : String) (h : specIs32Hex s = true) :
    normalizePageOrBlockId (JsValue.str s) = some (specDashedLower s.toList) := by
  unfold specIs32Hex at h
  rw [Bool.and_eq_true] at h
  obtain ⟨hlen, hall⟩ := h
  have hlen' : s.toList.length = 32 := of_decide_eq_true hlen
  have hhex : ∀ c ∈ s.toList, hexDigit c = true := List.all_eq_true.mp hall
  have htrim : jsTrim s = s :=
    jsTrim_eq_self s (fun c hc => jsWs_eq_false_of_hexDigit c (hhex c hc))
  unfold normalizePageOrBlockId
  dsimp only
  rw [htrim, filter_ne_dash_of_hex _ hhex]
  have hclen : (s.toList.map jsCharLower).length = 32 := by
    rw [List.length_map]
    exact hlen'
  have hcall : (s.toList.map jsCharLower).all hexDigitLower = true := by
    apply List.all_eq_true.mpr
    intro x hx
    rcases List.mem_map.mp hx with ⟨c, hcm, rfl⟩
    rw [hexDigitLower_jsCharLower]
    exact hhex c hcm
  rw [if_pos ⟨hclen, hcall⟩]
  rfl

/-- Structure of a canonical 8-4-4-4-12 dashed string. -/
theorem canonical_shape (s : String) (h : specIsCanonicalDashedUuid s = true) :
    s.toList = s.toList.take 8 ++ '-' :: ((s.toList.drop 9).take 4)
      ++ '-' :: ((s.toList.drop 14).take 4) ++ '-' :: ((s.toList.drop 19).take 4)
      ++ '-' :: s.toList.drop 24
    ∧ (∀ c ∈ s.toList.take 8, hexDigit c = true)
    ∧ (∀ c ∈ (s.toList.drop 9).take 4, hexDigit c = true)
    ∧ (∀ c ∈ (s.toList.drop 14).take 4, hexDigit c = true)
    ∧ (∀ c ∈ (s.toList.drop 19).take 4, hexDigit c = true)
    ∧ (∀ c ∈ s.toList.drop 24, hexDigit c = true)
    ∧ s.toList.length = 36 := by
  unfold specIsCanonicalDashedUuid at h
  simp only [Bool.and_eq_true, decide_eq_true_eq] at h
  obtain ⟨⟨⟨⟨⟨⟨⟨⟨⟨hlen, h8⟩, hd8⟩, h4a⟩, hd13⟩, h4b⟩, hd18⟩, h4c⟩, hd23⟩, h24⟩ := h
  have h8lt : 8 < s.toList.length := by omega
  have h13lt : 13 < s.toList.length := by omega
  have h18lt : 18 < s.toList.length := by omega
  have h23lt : 23 < s.toList.length := by omega
  have e8 : s.toList.drop 8 = '-' :: s.toList.drop 9 := by
    rw [List.drop_eq_getElem_cons h8lt]
    rw [← List.getD_eq_getElem s.toList 'x' h8lt, hd8]
  have e13 : s.toList.drop 13 = '-' :: s.toList.drop 14 := by
    rw [List.drop_eq_getElem_cons h13lt]
    rw [← List.getD_eq_getElem s.toList 'x' h13lt, hd13]
  have e18 : s.toList.drop 18 = '-' :: s.toList.drop 19 := by
    rw [List.drop_eq_getElem_cons h18lt]
    rw [← List.getD_eq_getElem s.toList 'x' h18lt, hd18]
  have e23 : s.toList.drop 23 = '-' :: s.toList.drop 24 := by
    rw [List.drop_eq_getElem_cons h23lt]
    rw [← List.getD_eq_getElem s.toList 'x' h23lt, hd23]
  have c9 : s.toList.drop 9 = (s.toList.drop 9).take 4 ++ s.toList.drop 13 := by
    have h0 := (List.take_append_drop 4 (s.toList.drop 9)).symm
    rwa [List.drop_drop] at h0
  have c14 : s.toList.drop 14 = (s.toList.drop 14).take 4 ++ s.toList.drop 18 := by
    have h0 := (List.take_append_drop 4 (s.toList.drop 14)).symm
    rwa [List.drop_drop] at h0
  have c19 : s.toList.drop 19 = (s.toList.drop 19).take 4 ++ s.toList.drop 23 := by
    have h0 := (List.take_append_drop 4 (s.toList.drop 19)).symm
    rwa [List.drop_drop] at h0
  refine ⟨?_, List.all_eq_true.mp h8, List.all_eq_true.mp h4a,
    List.all_eq_true.mp h4b, List.all_eq_true.mp h4c,
    List.all_eq_true.mp h24, hlen⟩
  conv_lhs => rw [← List.take_append_drop 8 s.toList, e8, c9, e13, c14, e18, c19, e23]
  simp

/-- The 8-4-4-4-12 regrouping of an 8+4+4+4+12 concatenation. -/
theorem grouping_of_concat (A B C D E : List Char)
    (hA : A.length = 8) (hB : B.length = 4) (hC : C.length = 4)
    (hD : D.length = 4) :
    (A ++ (B ++ (C ++ (D ++ E)))).take 8
      ++ '-' :: (((A ++ (B ++ (C ++ (D ++ E)))).drop 8).take 4)
      ++ '-' :: (((A ++ (B ++ (C ++ (D ++ E)))).drop 12).take 4)
      ++ '-' :: (((A ++ (B ++ (C ++ (D ++ E)))).drop 16).take 4)
      ++ '-' :: (A ++ (B ++ (C ++ (D ++ E)))).drop 20
    = A ++ '-' :: B ++ '-' :: C ++ '-' :: D ++ '-' :: E := by
  have t8 : (A ++ (B ++ (C ++ (D ++ E)))).take 8 = A := List.take_left' hA
  have d8 : (A ++ (B ++ (C ++ (D ++ E)))).drop 8 = B ++ (C ++ (D ++ E)) :=
    List.drop_left' hA
  have d12 : (A ++ (B ++ (C ++ (D ++ E)))).drop 12 = C ++ (D ++ E) := by
    have h0 : ((A ++ (B ++ (C ++ (D ++ E)))).drop 8).drop 4 = C ++ (D ++ E) := by
      rw [d8]
      exact List.drop_left' hB
    rwa [List.drop_drop] at h0
  have d16 : (A ++ (B ++ (C ++ (D ++ E)))).drop 16 = D ++ E := by
    have h0 : ((A ++ (B ++ (C ++ (D ++ E)))).drop 12).drop 4 = D ++ E := by
      rw [d12]
      exact List.drop_left' hC
    rwa [List.drop_drop] at h0
  have d20 : (A ++ (B ++ (C ++ (D ++ E)))).drop 20 = E := by
    have h0 : ((A ++ (B ++ (C ++ (D ++ E)))).drop 16).drop 4 = E := by
      rw [d16]
      exact List.drop_left' hD
    rwa [List.drop_drop] at h0
  rw [t8, d8, d12, d16, d20]
  rw [List.take_left' hB, List.take_left' hC, List.take_left' hD]

/-- Part 2b: a canonical dashed UUID (either case) is accepted and mapped to
the lowercase dashed grouping of its hex digits. -/
theorem normalizeId_of_canonical (s : String) (h : specIsCanonicalDashedUuid s = true) :
    normalizePageOrBlockId (JsValue.str s)
      = some (specDashedLower (s.toList.filter (fun c => hexDigit c))) := by
  obtain ⟨hshape, hx8, hx9, hx14, hx19, hx24, hlen⟩ := canonical_shape s h
  have hws : ∀ c ∈ s.toList, jsWs c = false := by
    intro c hc
    rw [hshape] at hc
    simp only [List.mem_append, List.mem_cons] at hc
    rcases hc with (((h1 | rfl | h1) | rfl | h1) | rfl | h1) | rfl | h1
    · exact jsWs_eq_false_of_hexDigit c (hx8 c h1)
    · decide
    · exact jsWs_eq_false_of_hexDigit c (hx9 c h1)
    · decide
    · exact jsWs_eq_false_of_hexDigit c (hx14 c h1)
    · decide
    · exact jsWs_eq_false_of_hexDigit c (hx19 c h1)
    · decide
    · exact jsWs_eq_false_of_hexDigit c (hx24 c h1)
  have htrim : jsTrim s = s := jsTrim_eq_self s hws
  have hdashcons : ∀ l : List Char,
      ('-' :: l).filter (fun c => c ≠ '-') = l.filter (fun c => c ≠ '-') := by
    intro l
    simp
  have hdashconsHex : ∀ l : List Char,
      ('-' :: l).filter (fun c => hexDigit c) = l.filter (fun c => hexDigit c) := by
    intro l
    have hdd : hexDigit '-' = false := by decide
    rw [List.filter_cons, hdd]
    simp
  have hfA := filter_ne_dash_of_hex _ hx8
  have hfB := filter_ne_dash_of_hex _ hx9
  have hfC := filter_ne_dash_of_hex _ hx14
  have hfD := filter_ne_dash_of_hex _ hx19
  have hfE := filter_ne_dash_of_hex _ hx24
  have hgA := filter_hex_of_hex _ hx8
  have hgB := filter_hex_of_hex _ hx9
  have hgC := filter_hex_of_hex _ hx14
  have hgD := filter_hex_of_hex _ hx19
  have hgE := filter_hex_of_hex _ hx24
  have hfil : s.toList.filter (fun c => c ≠ '-')
      = s.toList.take 8 ++ (s.toList.drop 9).take 4 ++ (s.toList.drop 14).take 4
        ++ (s.toList.drop 19).take 4 ++ s.toList.drop 24 := by
    conv_lhs => rw [hshape]
    simp only [List.filter_append, hdashcons, hfA, hfB, hfC, hfD, hfE]
  have hfilhex : s.toList.filter (fun c => hexDigit c)
      = s.toList.take 8 ++ (s.toList.drop 9).take 4 ++ (s.toList.drop 14).take 4
        ++ (s.toList.drop 19).take 4 ++ s.toList.drop 24 := by
    conv_lhs => rw [hshape]
    simp only [List.filter_append, hdashconsHex, hgA, hgB, hgC, hgD, hgE]
  have hcatlen : (s.toList.take 8 ++ (s.toList.drop 9).take 4
      ++ (s.toList.drop 14).take 4 ++ (s.toList.drop 19).take 4
      ++ s.toList.drop 24).length = 32 := by
    simp only [List.length_append, List.length_take, List.length_drop]
    omega
  have hcathex : ∀ c ∈ s.toList.take 8 ++ (s.toList.drop 9).take 4
      ++ (s.toList.drop 14).take 4 ++ (s.toList.drop 19).take 4
      ++ s.toList.drop 24, hexDigit c = true := by
    intro c hc
    simp only [List.mem_append] at hc
    rcases hc with (((h1 | h1) | h1) | h1) | h1
    · exact hx8 c h1
    · exact hx9 c h1
    · exact hx14 c h1
    · exact hx19 c h1
    · exact hx24 c h1
  unfold normalizePageOrBlockId
  dsimp only
  rw [htrim, hfil]
  have hclen : ((s.toList.take 8 ++ (s.toList.drop 9).take 4
      ++ (s.toList.drop 14).take 4 ++ (s.toList.drop 19).take 4
      ++ s.toList.drop 24).map jsCharLower).length = 32 := by
    rw [List.length_map]
    exact hcatlen
  have hcall : ((s.toList.take 8 ++ (s.toList.drop 9).take 4
      ++ (s.toList.drop 14).take 4 ++ (s.toList.drop 19).take 4
      ++ s.toList.drop 24).map jsCharLower).all hexDigitLower = true := by
    apply List.all_eq_true.mpr
    intro x hx
    rcases List.mem_map.mp hx with ⟨c, hcm, rfl⟩
    rw [hexDigitLower_jsCharLower]
    exact hcathex c hcm
  rw [if_pos ⟨hclen, hcall⟩]
  unfold specDashedLower
  rw [hfilhex]

/-- C9 counterexample: a 33-character string with a leading dash is neither
32 hex characters nor a canonical dashed UUID, yet the code accepts it
(dashes are stripped wherever they appear) and normalizes it. -/
theorem normalizeId_noncanonical_counterexample :
    normalizePageOrBlockId (JsValue.str "-aaaaaaaaaaaaaaaaaaaaaaaaaaaaaaaa")
      = some "aaaaaaaa-aaaa-aaaa-aaaa-aaaaaaaaaaaa"
    ∧ claimAcceptsId "-aaaaaaaaaaaaaaaaaaaaaaaaaaaaaaaa" = false := by
  exact ⟨by decide, by decide⟩

/-- C9 (amended): ID normalization accepts exactly the strings whose
trimmed form consists of dashes and hex digits (either case) with exactly
32 hex digits; every accepted claim-form input — 32 hex chars, or a
canonical 8-4-4-4-12 dashed UUID — is normalized to the lowercase dashed
grouping of its hex digits; non-strings are rejected. -/
theorem normalizePageOrBlockId_characterization :
    (∀ s : String, (normalizePageOrBlockId (JsValue.str s)).isSome = amendedAcceptsId s)
    ∧ (∀ v : JsValue, (normalizePageOrBlockId v).isSome = true → ∃ s, v = JsValue.str s)
    ∧ (∀ s : String, specIs32Hex s = true →
        normalizePageOrBlockId (JsValue.str s) = some (specDashedLower s.toList))
    ∧ (∀ s : String, specIsCanonicalDashedUuid s = true →
        normalizePageOrBlockId (JsValue.str s)
          = some (specDashedLower (s.toList.filter (fun c => hexDigit c)))) := by
  refine ⟨normalizeId_isSome_eq, ?_, normalizeId_of_32hex, normalizeId_of_canonical⟩
  intro v hv
  cases v with
  | str s => exact ⟨s, rfl⟩
  | null => exact Bool.noConfusion hv
  | undef => exact Bool.noConfusion hv
  | bool b => exact Bool.noConfusion hv
  | num n => exact Bool.noConfusion hv
  | arr xs => exact Bool.noConfusion hv
  | obj l => exact Bool.noConfusion hv

/-- C9 witness: the characterization applied to an uppercase 32-hex string,
an uppercase canonical dashed UUID, and a lowercase dashed UUID. -/
theorem normalizePageOrBlockId_characterization_witness :
    ((normalizePageOrBlockId (JsValue.str "ABCDEF012345678900aabbccddeeff99")).isSome
      = amendedAcceptsId "ABCDEF012345678900aabbccddeeff99")
    ∧ (∃ s, JsValue.str "312c9946-d64a-80cc-a398-fda09577bfc4" = JsValue.str s)
    ∧ normalizePageOrBlockId (JsValue.str "ABCDEF012345678900aabbccddeeff99")
        = some (specDashedLower "ABCDEF012345678900aabbccddeeff99".toList)
    ∧ normalizePageOrBlockId (JsValue.str "312C9946-D64A-80CC-A398-FDA09577BFC4")
        = some (specDashedLower
            ("312C9946-D64A-80CC-A398-FDA09577BFC4".toList.filter
              (fun c => hexDigit c))) := by
  refine ⟨normalizePageOrBlockId_characterization.1 _, ?_, ?_, ?_⟩
  · exact normalizePageOrBlockId_characterization.2.1
      (JsValue.str "312c9946-d64a-80cc-a398-fda09577bfc4") (by decide)
  · exact normalizePageOrBlockId_characterization.2.2.1 _ (by decide)
  · exact normalizePageOrBlockId_characterization.2.2.2 _ (by decide)

/-! ## Claim C3 — `__mcpFastForceRefresh` bypass semantics -/

/-- A boolean member passes through `deserializeParams` unchanged (only
string members are re-parsed), so the control field survives rehydration. -/
theorem deserializeParams_bool_field (fuel : Nat)
    (params : List (String × JsValue)) (k : String) (b : Bool)
    (h : params.find? (fun kv => kv.1 = k) = some (k, JsValue.bool b)) :
    (deserializeParams fuel params).find? (fun kv => kv.1 = k)
      = some (k, JsValue.bool b) := by
  cases fuel with
  | zero => exact h
  | succ f =>
    simp only [deserializeParams]
    induction params with
    | nil => simp [List.find?] at h
    | cons kv rest ih =>
      simp only [List.map_cons]
      by_cases hk : kv.1 = k
      · rw [List.find?_cons_of_pos _ (by simpa using hk)] at h
        have hkv : kv = (k, JsValue.bool b) := Option.some.inj h
        subst hkv
        rw [List.find?_cons_of_pos _ (by simp)]
      · rw [List.find?_cons_of_neg _ (by simpa using hk)] at h
        rw [List.find?_cons_of_neg _ (by simpa using hk)]
        exact ih h

/-- Splitting after rehydration reports `forceRefresh = true` whenever the
raw arguments carry `__mcpFastForceRefresh: true`. -/
theorem splitForceRefresh_of_field (fuel : Nat) (params : List (String × JsValue))
    (h : params.find? (fun kv => kv.1 = MCP_FAST_FORCE_REFRESH_FIELD)
      = some (MCP_FAST_FORCE_REFRESH_FIELD, JsValue.bool true)) :
    (splitProxyCacheParams (some (deserializeParams fuel params))).2 = true := by
  unfold splitProxyCacheParams
  dsimp only
  rw [deserializeParams_bool_field fuel params _ true h]
  rfl

/-- The sanitized arguments never carry the control field. -/
theorem sanitized_no_control_field (l : List (String × JsValue)) :
    ((splitProxyCacheParams (some l)).1).find?
      (fun kv => kv.1 = MCP_FAST_FORCE_REFRESH_FIELD) = none := by
  unfold splitProxyCacheParams
  dsimp only
  rw [List.find?_eq_none]
  intro kv hkv
  have h2 := (List.mem_filter.mp hkv).2
  simp only [ne_eq, decide_not, Bool.not_eq_true', decide_eq_false_iff_not] at h2
  simp [h2]

/-- C3: an allowlisted call with `__mcpFastForceRefresh = true` skips both
the response-cache read and the local SQLite fast-path, invokes the HTTP
client with the sanitized arguments (which no longer carry the control
field), never deletes the cache entry (an HTTP failure leaves the cache
untouched), and on success writes the fresh response via `set`, whose
insert step preserves an existing entry's `createdAt`. -/
theorem callTool_forceRefresh_spec (env : ProxyEnv)
    (cache0 : Option (CacheMap JsValue)) (now : Int)
    (localOutcome : Except Unit JsValue) (httpOutcome : Except HttpFailure JsValue)
    (name : String) (pl : List (String × JsValue)) (op : OperationEntry)
    (hop : findOperation env.openApiLookup env.toolNameAliases name = some op)
    (hallow : isOperationAllowlisted op = true)
    (hforce : (splitProxyCacheParams
      (some (deserializeParams env.deserializeFuel pl))).2 = true) :
    (handleCallTool env cache0 now localOutcome httpOutcome name
        (some pl)).responseCacheRead = false
    ∧ (handleCallTool env cache0 now localOutcome httpOutcome name
        (some pl)).localCacheQueried = false
    ∧ (handleCallTool env cache0 now localOutcome httpOutcome name
        (some pl)).httpParams
        = some (splitProxyCacheParams
            (some (deserializeParams env.deserializeFuel pl))).1
    ∧ ((splitProxyCacheParams
        (some (deserializeParams env.deserializeFuel pl))).1).find?
        (fun kv => kv.1 = MCP_FAST_FORCE_REFRESH_FIELD) = none
    ∧ (∀ err, httpOutcome = .error err →
        (handleCallTool env cache0 now localOutcome httpOutcome name
          (some pl)).responseCache = cache0)
    ∧ (∀ data, httpOutcome = .ok data →
        (handleCallTool env cache0 now localOutcome httpOutcome name
          (some pl)).responseCache
          = cache0.map (fun c => ReadResponseCache.set env.ttlMs env.maxEntries c
              (buildResponseCacheKey env.digest env.authFingerprint env.baseUrl op
                (splitProxyCacheParams
                  (some (deserializeParams env.deserializeFuel pl))).1)
              (toMcpToolResponse data) now))
    ∧ (∀ (c : CacheMap JsValue) (e : CacheEntry JsValue) (k : String) (v : JsValue),
        mapGet c k = some e →
        mapGet (ReadResponseCache.insertStep c k v now) k
          = some { value := v, createdAt := e.createdAt,
                   updatedAt := now, accessedAt := now }) := by
  have hrun : handleCallTool env cache0 now localOutcome httpOutcome name (some pl)
      = handlerHttpStage env cache0 now httpOutcome
          (buildResponseCacheKey env.digest env.authFingerprint env.baseUrl op
            (splitProxyCacheParams
              (some (deserializeParams env.deserializeFuel pl))).1)
          (splitProxyCacheParams
            (some (deserializeParams env.deserializeFuel pl))).1
          false false := by
    unfold handleCallTool
    rw [hop]
    dsimp only
    rw [hallow]
    simp only [Bool.true_eq_false, if_false]
    rw [if_pos hforce]
  refine ⟨?_, ?_, ?_, sanitized_no_control_field _, ?_, ?_, ?_⟩
  · rw [hrun]
    unfold handlerHttpStage
    cases httpOutcome with
    | ok data => rfl
    | error e => cases e <;> rfl
  · rw [hrun]
    unfold handlerHttpStage
    cases httpOutcome with
    | ok data => rfl
    | error e => cases e <;> rfl
  · rw [hrun]
    unfold handlerHttpStage
    cases httpOutcome with
    | ok data => rfl
    | error e => cases e <;> rfl
  · intro err herr
    rw [hrun, herr]
    unfold handlerHttpStage
    cases err <;> rfl
  · intro data hdata
    rw [hrun, hdata]
    rfl
  · intro c e k v hget
    unfold ReadResponseCache.insertStep
    rw [hget]
    exact mapGet_mapSet_self c k _

/-- C3 witness: a force-refresh call against a concrete allowlisted
operation with a failing HTTP client reads neither cache, forwards the
sanitized arguments, and leaves the (absent) response cache untouched. -/
theorem callTool_forceRefresh_spec_witness :
    (handleCallTool
      { openApiLookup := [("retrieve-a-page",
          { method := "get", path := "/v1/pages/p",
            operationId := some "retrieve-a-page" })]
        toolNameAliases := []
        digest := fun _ => "d"
        authFingerprint := "af"
        baseUrl := "b"
        ttlMs := 30000
        maxEntries := 300
        deserializeFuel := 8 }
      none 0 (.ok (.obj [])) (.error (.clientErr .null)) "retrieve-a-page"
      (some [(MCP_FAST_FORCE_REFRESH_FIELD, JsValue.bool true),
             ("page_id", .str "312c9946-d64a-80cc-a398-fda09577bfc4")])).responseCacheRead
      = false
    ∧ (handleCallTool
      { openApiLookup := [("retrieve-a-page",
          { method := "get", path := "/v1/pages/p",
            operationId := some "retrieve-a-page" })]
        toolNameAliases := []
        digest := fun _ => "d"
        authFingerprint := "af"
        baseUrl := "b"
        ttlMs := 30000
        maxEntries := 300
        deserializeFuel := 8 }
      none 0 (.ok (.obj [])) (.error (.clientErr .null)) "retrieve-a-page"
      (some [(MCP_FAST_FORCE_REFRESH_FIELD, JsValue.bool true),
             ("page_id", .str "312c9946-d64a-80cc-a398-fda09577bfc4")])).localCacheQueried
      = false
    ∧ (handleCallTool
      { openApiLookup := [("retrieve-a-page",
          { method := "get", path := "/v1/pages/p",
            operationId := some "retrieve-a-page" })]
        toolNameAliases := []
        digest := fun _ => "d"
        authFingerprint := "af"
        baseUrl := "b"
        ttlMs := 30000
        maxEntries := 300
        deserializeFuel := 8 }
      none 0 (.ok (.obj [])) (.error (.clientErr .null)) "retrieve-a-page"
      (some [(MCP_FAST_FORCE_REFRESH_FIELD, JsValue.bool true),
             ("page_id", .str "312c9946-d64a-80cc-a398-fda09577bfc4")])).httpParams
      = some (splitProxyCacheParams (some (deserializeParams 8
          [(MCP_FAST_FORCE_REFRESH_FIELD, JsValue.bool true),
           ("page_id", .str "312c9946-d64a-80cc-a398-fda09577bfc4")]))).1
    ∧ (handleCallTool
      { openApiLookup := [("retrieve-a-page",
          { method := "get", path := "/v1/pages/p",
            operationId := some "retrieve-a-page" })]
        toolNameAliases := []
        digest := fun _ => "d"
        authFingerprint := "af"
        baseUrl := "b"
        ttlMs := 30000
        maxEntries := 300
        deserializeFuel := 8 }
      none 0 (.ok (.obj [])) (.error (.clientErr .null)) "retrieve-a-page"
      (some [(MCP_FAST_FORCE_REFRESH_FIELD, JsValue.bool true),
             ("page_id", .str "312c9946-d64a-80cc-a398-fda09577bfc4")])).responseCache
      = none := by
  have h := callTool_forceRefresh_spec
    { openApiLookup := [("retrieve-a-page",
        { method := "get", path := "/v1/pages/p",
          operationId := some "retrieve-a-page" })]
      toolNameAliases := []
      digest := fun _ => "d"
      authFingerprint := "af"
      baseUrl := "b"
      ttlMs := 30000
      maxEntries := 300
      deserializeFuel := 8 }
    none 0 (.ok (.obj [])) (.error (.clientErr .null)) "retrieve-a-page"
    [(MCP_FAST_FORCE_REFRESH_FIELD, JsValue.bool true),
     ("page_id", .str "312c9946-d64a-80cc-a398-fda09577bfc4")]
    { method := "get", path := "/v1/pages/p", operationId := some "retrieve-a-page" }
    rfl rfl
    (splitForceRefresh_of_field 8
      [(MCP_FAST_FORCE_REFRESH_FIELD, JsValue.bool true),
       ("page_id", .str "312c9946-d64a-80cc-a398-fda09577bfc4")] rfl)
  exact ⟨h.1, h.2.1, h.2.2.1, h.2.2.2.2.1 _ rfl⟩

/-! ## Claims C7 and C8 — `getBlockChildren` pagination -/

/-- Every collected row normalizes back to its paged child id, in order. -/
theorem collectOrderedRows_norm_ids (latest : List (String × BlockRow)) :
    ∀ (paged : List String) (rows : List BlockRow),
    collectOrderedRows latest paged = some rows →
    rows.map (fun row => normalizePageOrBlockId row.id) = paged.map some := by
  intro paged
  induction paged with
  | nil =>
    intro rows h
    unfold collectOrderedRows at h
    cases h
    rfl
  | cons cid rest ih =>
    intro rows h
    unfold collectOrderedRows at h
    cases hfind : (latest.find? (fun kv => kv.1 = cid)).map (·.2) with
    | none =>
      rw [hfind] at h
      dsimp only at h
      cases h
    | some row =>
      rw [hfind] at h
      dsimp only at h
      by_cases hv : validChildRow cid row = true
      · rw [if_pos hv] at h
        cases hrec : collectOrderedRows latest rest with
        | none => rw [hrec] at h; cases h
        | some rows2 =>
          rw [hrec] at h
          have hrows : row :: rows2 = rows := by
            simpa using h
          subst hrows
          have hnorm : normalizePageOrBlockId row.id = some cid := by
            unfold validChildRow at hv
            simp only [Bool.and_eq_true, decide_eq_true_eq] at hv
            exact hv.1.1.1
          simp only [List.map_cons, hnorm, ih rows2 hrec]
      · rw [if_neg hv] at h
        cases h

/-- The `id` field of a projected block is the raw row id. -/
theorem toNotionBlock_id (iso : Int → String) (row : BlockRow) :
    (toNotionBlock iso row).getField "id" = some row.id := by
  rfl

/-- Reading `results` off a built children page object. -/
theorem pageObj_results (res : List JsValue) (nc hm : JsValue) :
    (JsValue.obj
      [("object", .str "list"), ("results", .arr res), ("next_cursor", nc),
       ("has_more", hm), ("type", .str "block"),
       ("block", .obj [])]).getField "results" = some (.arr res) := rfl

/-- Reading `next_cursor` off a built children page object. -/
theorem pageObj_next_cursor (res : List JsValue) (nc hm : JsValue) :
    (JsValue.obj
      [("object", .str "list"), ("results", .arr res), ("next_cursor", nc),
       ("has_more", hm), ("type", .str "block"),
       ("block", .obj [])]).getField "next_cursor" = some nc := rfl

/-- Reading `has_more` off a built children page object. -/
theorem pageObj_has_more (res : List JsValue) (nc hm : JsValue) :
    (JsValue.obj
      [("object", .str "list"), ("results", .arr res), ("next_cursor", nc),
       ("has_more", hm), ("type", .str "block"),
       ("block", .obj [])]).getField "has_more" = some hm := rfl

/-- `resultNormalizedIds` on a built children page object. -/
theorem resultNormalizedIds_page (res : List JsValue) (nc hm : JsValue) :
    resultNormalizedIds (JsValue.obj
      [("object", .str "list"), ("results", .arr res), ("next_cursor", nc),
       ("has_more", hm), ("type", .str "block"), ("block", .obj [])])
    = some (res.map (fun b =>
        normalizePageOrBlockId ((b.getField "id").getD .undef))) := rfl

/-- Every successful `blockChildrenPage` reports exactly the normalized ids
of the slice `[startIndex, startIndex + pageSize)` of the parent's child
ids, in order. -/
theorem blockChildrenPage_results (iso : Int → String)
    (childRows : List BlockRow) (childIds : List String)
    (startIndex : Nat) (pageSize : Int) (r : JsValue)
    (h : blockChildrenPage iso childRows childIds startIndex pageSize = some r) :
    resultNormalizedIds r
      = some (((childIds.drop startIndex).take pageSize.toNat).map some) := by
  unfold blockChildrenPage at h
  dsimp only at h
  split at h
  · rename_i hemp
    have hr := Option.some.inj h
    subst hr
    rw [List.isEmpty_iff.mp hemp]
    rfl
  · split at h
    · exact Option.noConfusion h
    · rename_i hne rows hcollect
      have hr := Option.some.inj h
      subst hr
      rw [resultNormalizedIds_page, List.map_map]
      have hmap : ((fun b =>
            normalizePageOrBlockId ((b.getField "id").getD .undef))
              ∘ toNotionBlock iso)
          = fun row => normalizePageOrBlockId row.id := by
        funext row
        simp [Function.comp, toNotionBlock_id]
      rw [hmap, collectOrderedRows_norm_ids _ _ _ hcollect]

/-- Every key of `latestRowById` is its row's own (string) id. -/
theorem buildLatestRowById_key_aux :
    ∀ (rows : List BlockRow) (acc : List (String × BlockRow)),
    (∀ kv ∈ acc, kv.2.id = JsValue.str kv.1) →
    ∀ kv ∈ rows.foldl (fun acc row =>
        match row.id with
        | .str s => if (acc.find? (fun kv => kv.1 = s)).isSome then acc
                    else acc ++ [(s, row)]
        | _ => acc) acc,
      kv.2.id = JsValue.str kv.1 := by
  intro rows
  induction rows with
  | nil =>
    intro acc hacc kv hkv
    exact hacc kv hkv
  | cons row rest ih =>
    intro acc hacc kv hkv
    rw [List.foldl_cons] at hkv
    refine ih _ ?_ kv hkv
    intro kv2 hkv2
    cases hidr : row.id with
    | str s =>
      rw [hidr] at hkv2
      dsimp only at hkv2
      split at hkv2
      · exact hacc kv2 hkv2
      · rcases List.mem_append.mp hkv2 with h2 | h2
        · exact hacc kv2 h2
        · have h3 : kv2 = (s, row) := by simpa using h2
          subst h3
          exact hidr
    | null => rw [hidr] at hkv2; exact hacc kv2 hkv2
    | undef => rw [hidr] at hkv2; exact hacc kv2 hkv2
    | bool b => rw [hidr] at hkv2; exact hacc kv2 hkv2
    | num n => rw [hidr] at hkv2; exact hacc kv2 hkv2
    | arr xs => rw [hidr] at hkv2; exact hacc kv2 hkv2
    | obj l => rw [hidr] at hkv2; exact hacc kv2 hkv2

/-- Specialization of the key invariant to `buildLatestRowById` itself. -/
theorem buildLatestRowById_key (rows : List BlockRow) :
    ∀ kv ∈ buildLatestRowById rows, kv.2.id = JsValue.str kv.1 := by
  intro kv hkv
  unfold buildLatestRowById at hkv
  exact buildLatestRowById_key_aux rows []
    (by intro kv2 h2; exact absurd h2 (List.not_mem_nil kv2)) kv hkv

/-- When the lookup map's keys are their rows' own ids, every collected
row carries exactly its paged child id as raw `id`, in order. -/
theorem collectOrderedRows_raw_ids (latest : List (String × BlockRow))
    (hkey : ∀ kv ∈ latest, kv.2.id = JsValue.str kv.1) :
    ∀ (paged : List String) (rows : List BlockRow),
    collectOrderedRows latest paged = some rows →
    rows.map (fun row => row.id) = paged.map JsValue.str := by
  intro paged
  induction paged with
  | nil =>
    intro rows h
    unfold collectOrderedRows at h
    cases h
    rfl
  | cons cid rest ih =>
    intro rows h
    unfold collectOrderedRows at h
    cases hf : latest.find? (fun kv => kv.1 = cid) with
    | none =>
      rw [hf, Option.map_none'] at h
      exact Option.noConfusion h
    | some kv =>
      rw [hf, Option.map_some'] at h
      dsimp only at h
      by_cases hv : validChildRow cid kv.2 = true
      · rw [if_pos hv] at h
        cases hrec : collectOrderedRows latest rest with
        | none => rw [hrec] at h; cases h
        | some rows2 =>
          rw [hrec] at h
          have hrows : kv.2 :: rows2 = rows := by
            simpa using h
          subst hrows
          have hcid : kv.1 = cid := by
            have h4 := List.find?_some hf
            simpa using h4
          have hid : kv.2.id = JsValue.str cid := by
            rw [hkey kv (List.mem_of_find?_eq_some hf), hcid]
          simp only [List.map_cons, hid, ih rows2 hrec]
      · rw [if_neg hv] at h
        cases h

/-- Every successful `blockChildrenPage`: when `has_more` is true the
`next_cursor` is exactly the `id` field of the last result; when
`has_more` is false the `next_cursor` is `null`. -/
theorem blockChildrenPage_cursor (iso : Int → String)
    (childRows : List BlockRow) (childIds : List String)
    (startIndex : Nat) (pageSize : Int) (r : JsValue)
    (h : blockChildrenPage iso childRows childIds startIndex pageSize = some r) :
    (r.getField "has_more" = some (JsValue.bool true) →
      ∃ res lastBlock,
        r.getField "results" = some (JsValue.arr res)
        ∧ res.getLast? = some lastBlock
        ∧ r.getField "next_cursor" = lastBlock.getField "id")
    ∧ (r.getField "has_more" = some (JsValue.bool false) →
        r.getField "next_cursor" = some JsValue.null) := by
  unfold blockChildrenPage at h
  dsimp only at h
  split at h
  · have hr := Option.some.inj h
    subst hr
    constructor
    · intro h1
      have hfalse : emptyChildrenResult.getField "has_more"
          = some (JsValue.bool false) := rfl
      rw [hfalse] at h1
      simp at h1
    · intro _
      rfl
  · split at h
    · exact Option.noConfusion h
    · rename_i hnemp hscrut rows hcollect
      split at h
      · rename_i hmt
        split at h
        · rename_i s hlast
          have hr := Option.some.inj h
          subst hr
          constructor
          · intro _
            have hraw := collectOrderedRows_raw_ids _
              (buildLatestRowById_key childRows) _ _ hcollect
            have hlast2 : (((childIds.drop startIndex).take
                pageSize.toNat).map JsValue.str).getLast?
                  = some (JsValue.str s) := by
              rw [List.getLast?_map, hlast]
              rfl
            rw [← hraw, List.getLast?_map] at hlast2
            obtain ⟨lastRow, hrow, hid⟩ := Option.map_eq_some'.mp hlast2
            refine ⟨rows.map (toNotionBlock iso), toNotionBlock iso lastRow,
              pageObj_results _ _ _, ?_, ?_⟩
            · rw [List.getLast?_map, hrow]
              rfl
            · rw [pageObj_next_cursor, toNotionBlock_id, hid]
          · intro h1
            rw [pageObj_has_more] at h1
            simp at h1
            simp at hmt
            omega
        · rename_i hlast
          rw [List.getLast?_eq_none_iff] at hlast
          exact absurd (show ((childIds.drop startIndex).take
            pageSize.toNat).isEmpty = true by rw [hlast] ; rfl) hnemp
      · rename_i hmf
        rw [Bool.not_eq_true] at hmf
        rw [hmf] at h
        have hr := Option.some.inj h
        subst hr
        constructor
        · intro h1
          rw [pageObj_has_more] at h1
          simp at h1
        · intro _
          exact pageObj_next_cursor _ _ _

/-- The spec-side effective page size coincides with the source's. -/
theorem effectivePageSize_eq (f : JsValue) (mp : Int) :
    effectivePageSize f mp = blockChildrenPageSize mp f := rfl

/-- Reduction of `getBlockChildren` once the parent lookup pipeline's
outcomes are pinned. -/
theorem getBlockChildren_unfold (maxPageSize : Int) (iso : Int → String)
    (params : List (String × JsValue)) (parentRows childRows : List BlockRow)
    (parentRow : BlockRow) (rest : List BlockRow)
    (parentContent : List JsValue) (childIds : List String)
    (hrows : parentRows = parentRow :: rest)
    (hcontent : parseJsonArrayStrict parentRow.content = some parentContent)
    (hids : normalizeChildIds parentContent = some childIds) :
    getBlockChildren maxPageSize iso params parentRows childRows
      = match normalizePageOrBlockId (objGetD params "block_id") with
        | none => none
        | some _ =>
          match blockChildrenStartIndex childIds
              (objGetD params "start_cursor") with
          | none => none
          | some startIndex =>
            blockChildrenPage iso childRows childIds startIndex
              (blockChildrenPageSize maxPageSize (objGetD params "page_size")) := by
  unfold getBlockChildren
  rw [hrows]
  dsimp only
  rw [hcontent]
  dsimp only
  rw [hids]

/-- C8: for every non-null `getBlockChildren` result, `has_more` true
means `next_cursor` equals the `id` field of the last element of
`results`, and `has_more` false means `next_cursor` is `null`. -/
theorem getBlockChildren_next_cursor (maxPageSize : Int) (iso : Int → String)
    (params : List (String × JsValue)) (parentRows childRows : List BlockRow)
    (r : JsValue)
    (h : getBlockChildren maxPageSize iso params parentRows childRows = some r) :
    (r.getField "has_more" = some (JsValue.bool true) →
      ∃ res lastBlock,
        r.getField "results" = some (JsValue.arr res)
        ∧ res.getLast? = some lastBlock
        ∧ r.getField "next_cursor" = lastBlock.getField "id")
    ∧ (r.getField "has_more" = some (JsValue.bool false) →
        r.getField "next_cursor" = some JsValue.null) := by
  unfold getBlockChildren at h
  dsimp only at h
  split at h
  · exact Option.noConfusion h
  · split at h
    · exact Option.noConfusion h
    · split at h
      · exact Option.noConfusion h
      · split at h
        · exact Option.noConfusion h
        · split at h
          · exact Option.noConfusion h
          · exact blockChildrenPage_cursor _ _ _ _ _ _ h

/-- C8 witness: a concrete two-child parent read one child at a time. -/
theorem getBlockChildren_next_cursor_witness :
    getBlockChildren 100 fixIso fixParamsPage1 [fixParentRow] [fixRowA, fixRowB]
        = some fixPage1
    ∧ ((fixPage1.getField "has_more" = some (JsValue.bool true) →
        ∃ res lastBlock,
          fixPage1.getField "results" = some (JsValue.arr res)
          ∧ res.getLast? = some lastBlock
          ∧ fixPage1.getField "next_cursor" = lastBlock.getField "id")
      ∧ (fixPage1.getField "has_more" = some (JsValue.bool false) →
          fixPage1.getField "next_cursor" = some JsValue.null)) :=
  ⟨rfl, getBlockChildren_next_cursor 100 fixIso fixParamsPage1 [fixParentRow]
    [fixRowA, fixRowB] fixPage1 rfl⟩

/-- C7 counterexample: with content `[a, b]`, cursor `a` (found at index
0) and `page_size` 2, the claim predicts the slice `[a, b]` but the code
returns `[b]` — the page starts just *after* the cursor position. -/
theorem getBlockChildren_slice_counterexample :
    normalizePageOrBlockId (JsValue.str fixIdA) = some fixDashedA
    ∧ listIndexOf [fixDashedA, fixDashedB] fixDashedA = some 0
    ∧ claimChildrenSliceIds [fixDashedA, fixDashedB] fixDashedA 2
        = some [fixDashedA, fixDashedB]
    ∧ getBlockChildren 100 fixIso fixParamsCursorA [fixParentRow]
        [fixRowA, fixRowB] = some fixPageAfterA
    ∧ resultNormalizedIds fixPageAfterA = some [some fixDashedB]
    ∧ [some fixDashedB] ≠ [some fixDashedA, some fixDashedB] :=
  ⟨rfl, rfl, rfl, rfl, rfl, by decide⟩

/-- C7 (amended): on a valid parent, a missing/null `start_cursor` pages
from index 0; a given cursor that does not normalize, or whose normalized
form is not found among the child ids, makes the operation return null;
and a cursor found at index `i` yields the slice starting at `i + 1` (not
`i`), of length `effectivePageSize` (positive `page_size` capped at
`max_page_size`, anything else falling back to `max_page_size`). -/
theorem getBlockChildren_page_slice (maxPageSize : Int) (iso : Int → String)
    (params : List (String × JsValue)) (parentRows childRows : List BlockRow)
    (parentRow : BlockRow) (rest : List BlockRow)
    (parentContent : List JsValue) (childIds : List String)
    (hrows : parentRows = parentRow :: rest)
    (hcontent : parseJsonArrayStrict parentRow.content = some parentContent)
    (hids : normalizeChildIds parentContent = some childIds) :
    ((objGetD params "start_cursor" = JsValue.undef
        ∨ objGetD params "start_cursor" = JsValue.null) →
      ∀ r, getBlockChildren maxPageSize iso params parentRows childRows = some r →
        resultNormalizedIds r = some ((childIds.take
          (effectivePageSize (objGetD params "page_size") maxPageSize).toNat).map some))
    ∧ (∀ sc, objGetD params "start_cursor" = JsValue.str sc →
        normalizePageOrBlockId (JsValue.str sc) = none →
        getBlockChildren maxPageSize iso params parentRows childRows = none)
    ∧ (∀ sc nsc, objGetD params "start_cursor" = JsValue.str sc →
        normalizePageOrBlockId (JsValue.str sc) = some nsc →
        listIndexOf childIds nsc = none →
        getBlockChildren maxPageSize iso params parentRows childRows = none)
    ∧ (∀ sc nsc i, objGetD params "start_cursor" = JsValue.str sc →
        normalizePageOrBlockId (JsValue.str sc) = some nsc →
        listIndexOf childIds nsc = some i →
        ∀ r, getBlockChildren maxPageSize iso params parentRows childRows = some r →
          resultNormalizedIds r = some (((childIds.drop (i + 1)).take
            (effectivePageSize (objGetD params "page_size") maxPageSize).toNat).map some)) := by
  have heq := getBlockChildren_unfold maxPageSize iso params parentRows childRows
    parentRow rest parentContent childIds hrows hcontent hids
  refine ⟨?_, ?_, ?_, ?_⟩
  · intro hsc r hr
    rw [heq] at hr
    cases hb : normalizePageOrBlockId (objGetD params "block_id") with
    | none => rw [hb] at hr; exact Option.noConfusion hr
    | some nid =>
      rw [hb] at hr
      dsimp only at hr
      have hstart : blockChildrenStartIndex childIds
          (objGetD params "start_cursor") = some 0 := by
        rcases hsc with hsc | hsc <;> rw [hsc] <;> rfl
      rw [hstart] at hr
      dsimp only at hr
      have hres := blockChildrenPage_results iso childRows childIds 0
        (blockChildrenPageSize maxPageSize (objGetD params "page_size")) r hr
      rw [hres, effectivePageSize_eq, List.drop_zero]
  · intro sc hsc hnone
    rw [heq]
    cases hb : normalizePageOrBlockId (objGetD params "block_id") with
    | none => rfl
    | some nid =>
      dsimp only
      have hstart : blockChildrenStartIndex childIds
          (objGetD params "start_cursor") = none := by
        rw [hsc]
        unfold blockChildrenStartIndex
        dsimp only
        rw [hnone]
      rw [hstart]
  · intro sc nsc hsc hnsc hfound
    rw [heq]
    cases hb : normalizePageOrBlockId (objGetD params "block_id") with
    | none => rfl
    | some nid =>
      dsimp only
      have hstart : blockChildrenStartIndex childIds
          (objGetD params "start_cursor") = none := by
        rw [hsc]
        unfold blockChildrenStartIndex
        dsimp only
        rw [hnsc]
        dsimp only
        rw [hfound]
      rw [hstart]
  · intro sc nsc i hsc hnsc hfound r hr
    rw [heq] at hr
    cases hb : normalizePageOrBlockId (objGetD params "block_id") with
    | none => rw [hb] at hr; exact Option.noConfusion hr
    | some nid =>
      rw [hb] at hr
      dsimp only at hr
      have hstart : blockChildrenStartIndex childIds
          (objGetD params "start_cursor") = some (i + 1) := by
        rw [hsc]
        unfold blockChildrenStartIndex
        dsimp only
        rw [hnsc]
        dsimp only
        rw [hfound]
      rw [hstart] at hr
      dsimp only at hr
      have hres := blockChildrenPage_results iso childRows childIds (i + 1)
        (blockChildrenPageSize maxPageSize (objGetD params "page_size")) r hr
      rw [hres, effectivePageSize_eq]

/-- C7 witness: the concrete cursor-at-index-0 run, paging `[i + 1, …)`. -/
theorem getBlockChildren_page_slice_witness :
    getBlockChildren 100 fixIso fixParamsCursorA [fixParentRow] [fixRowA, fixRowB]
        = some fixPageAfterA
    ∧ resultNormalizedIds fixPageAfterA
        = some ((([fixDashedA, fixDashedB].drop (0 + 1)).take
            (effectivePageSize (objGetD fixParamsCursorA "page_size") 100).toNat).map some) := by
  refine ⟨rfl, ?_⟩
  have h := getBlockChildren_page_slice 100 fixIso fixParamsCursorA [fixParentRow]
    [fixRowA, fixRowB] fixParentRow [] [JsValue.str fixIdA, JsValue.str fixIdB]
    [fixDashedA, fixDashedB] rfl rfl rfl
  exact h.2.2.2 fixIdA fixDashedA 0 rfl rfl rfl fixPageAfterA rfl

/-! ## Claim C2 — cache-key invariance under object key order -/

/-- Eliminating `attach` from the array serialization arm. -/
theorem serialize_attach_map (xs : List JsValue) :
    xs.attach.map (fun x => (serializeDeterministicCore x.1).getD "null")
      = xs.map (fun x => (serializeDeterministicCore x).getD "null") := by
  conv_rhs => rw [← List.attach_map_subtype_val xs]
  rw [List.map_map]
  rfl

/-- Eliminating `attach` from the object serialization arm. -/
theorem serialize_attach_filterMap (l : List (String × JsValue)) :
    l.attach.filterMap
        (fun kv => (serializeDeterministicCore kv.1.2).map
          (fun s => jsonQuote kv.1.1 ++ ":" ++ s))
      = l.filterMap
        (fun kv => (serializeDeterministicCore kv.2).map
          (fun s => jsonQuote kv.1 ++ ":" ++ s)) := by
  conv_rhs => rw [← List.attach_map_subtype_val l]
  rw [List.filterMap_map]
  rfl

/-- `serializeDeterministic` on arrays, `attach`-free. -/
theorem serializeDeterministicCore_arr (xs : List JsValue) :
    serializeDeterministicCore (.arr xs)
      = some ("[" ++ String.intercalate ","
          (xs.map (fun x => (serializeDeterministicCore x).getD "null")) ++ "]") := by
  conv_lhs => unfold serializeDeterministicCore
  rw [serialize_attach_map]

/-- `serializeDeterministic` on objects, `attach`-free. -/
theorem serializeDeterministicCore_obj (l : List (String × JsValue)) :
    serializeDeterministicCore (.obj l)
      = some ("\x7b" ++ String.intercalate ","
          ((List.insertionSort keyLe l).filterMap
            (fun kv => (serializeDeterministicCore kv.2).map
              (fun s => jsonQuote kv.1 ++ ":" ++ s))) ++ "\x7d") := by
  conv_lhs => unfold serializeDeterministicCore
  rw [serialize_attach_filterMap]

/-- Map congruence along a `Forall₂` relation. -/
theorem map_congr_forall₂ {α β : Type} {R : α → α → Prop} {f : α → β} :
    ∀ {xs ys : List α}, List.Forall₂ R xs ys →
    (∀ a b, a ∈ xs → R a b → f a = f b) →
    xs.map f = ys.map f := by
  intro xs ys h
  induction h with
  | nil => intro _; rfl
  | cons hab htail ih =>
    intro hcong
    simp only [List.map_cons]
    rw [hcong _ _ (List.mem_cons_self _ _) hab,
      ih (fun a b ha hr => hcong a b (List.mem_cons_of_mem _ ha) hr)]

/-- FilterMap congruence along a `Forall₂` relation. -/
theorem filterMap_congr_forall₂ {α β : Type} {S : α → α → Prop}
    {g : α → Option β} :
    ∀ {xs ys : List α}, List.Forall₂ S xs ys →
    (∀ a b, a ∈ xs → S a b → g a = g b) →
    xs.filterMap g = ys.filterMap g := by
  intro xs ys h
  induction h with
  | nil => intro _; rfl
  | cons hab htail ih =>
    intro hcong
    simp only [List.filterMap_cons]
    rw [hcong _ _ (List.mem_cons_self _ _) hab,
      ih (fun a b ha hr => hcong a b (List.mem_cons_of_mem _ ha) hr)]

/-- Pointwise-equal keys and `Forall₂`-related values combine into a
`Forall₂` over the member pairs. -/
theorem forall₂_of_keys_vals {R : JsValue → JsValue → Prop} :
    ∀ (ps qs : List (String × JsValue)),
    ps.map Prod.fst = qs.map Prod.fst →
    List.Forall₂ R (ps.map Prod.snd) (qs.map Prod.snd) →
    List.Forall₂ (fun p q => p.1 = q.1 ∧ R p.2 q.2) ps qs := by
  intro ps
  induction ps with
  | nil =>
    intro qs hk _
    cases qs with
    | nil => exact .nil
    | cons q qs => simp at hk
  | cons p ps ih =>
    intro qs hk hv
    cases qs with
    | nil => simp at hk
    | cons q qs =>
      simp only [List.map_cons, List.cons.injEq] at hk
      simp only [List.map_cons] at hv
      cases hv with
      | cons h1 h2 => exact .cons ⟨hk.1, h1⟩ (ih qs hk.2 h2)

/-- `orderedInsert` acts in lockstep on two `Forall₂`-related lists when
the relation preserves keys. -/
theorem orderedInsert_forall₂ {S : (String × JsValue) → (String × JsValue) → Prop}
    (hk : ∀ p q, S p q → p.1 = q.1) (p q : String × JsValue) (hpq : S p q) :
    ∀ {l l' : List (String × JsValue)}, List.Forall₂ S l l' →
    List.Forall₂ S (List.orderedInsert keyLe p l)
      (List.orderedInsert keyLe q l') := by
  intro l l' h
  induction h with
  | nil => exact .cons hpq .nil
  | cons hab htail ih =>
    rename_i a b l₁ l₂
    by_cases hc : keyLe p a
    · have hc' : keyLe q b := by
        unfold keyLe at hc ⊢
        rw [← hk p q hpq, ← hk a b hab]
        exact hc
      simp only [List.orderedInsert, if_pos hc, if_pos hc']
      exact .cons hpq (.cons hab htail)
    · have hc' : ¬ keyLe q b := by
        unfold keyLe at hc ⊢
        rw [← hk p q hpq, ← hk a b hab]
        exact hc
      simp only [List.orderedInsert, if_neg hc, if_neg hc']
      exact .cons hab ih

/-- `insertionSort` acts in lockstep on two `Forall₂`-related lists when
the relation preserves keys. -/
theorem insertionSort_forall₂
    {S : (String × JsValue) → (String × JsValue) → Prop}
    (hk : ∀ p q, S p q → p.1 = q.1) :
    ∀ {l l' : List (String × JsValue)}, List.Forall₂ S l l' →
    List.Forall₂ S (List.insertionSort keyLe l)
      (List.insertionSort keyLe l') := by
  intro l l' h
  induction h with
  | nil => exact .nil
  | cons hab htail ih =>
    simp only [List.insertionSort]
    exact orderedInsert_forall₂ hk _ _ hab ih

/-- A `keyLe`-sorted member list with pairwise-distinct keys is strictly
sorted. -/
theorem sorted_keyLt_of (l : List (String × JsValue))
    (hs : List.Sorted keyLe l) (hnd : (l.map Prod.fst).Nodup) :
    List.Sorted keyLt l := by
  have h1 : List.Pairwise (fun p q : String × JsValue => p.1 ≠ q.1) l :=
    (List.pairwise_map).mp hnd
  exact (hs.and h1).imp (fun h => lt_of_le_of_ne h.1 h.2)

/-- Sorting two permuted member lists with distinct keys gives the same
list. -/
theorem insertionSort_eq_of_perm (xs zs : List (String × JsValue))
    (hperm : xs.Perm zs) (hnd : (xs.map Prod.fst).Nodup) :
    List.insertionSort keyLe xs = List.insertionSort keyLe zs := by
  have hndz : (zs.map Prod.fst).Nodup := (hperm.map Prod.fst).nodup_iff.mp hnd
  have hp : (List.insertionSort keyLe xs).Perm (List.insertionSort keyLe zs) :=
    ((List.perm_insertionSort keyLe xs).trans hperm).trans
      (List.perm_insertionSort keyLe zs).symm
  have hs1 : List.Sorted keyLt (List.insertionSort keyLe xs) :=
    sorted_keyLt_of _ (List.sorted_insertionSort keyLe xs)
      (((List.perm_insertionSort keyLe xs).map Prod.fst).nodup_iff.mpr hnd)
  have hs2 : List.Sorted keyLt (List.insertionSort keyLe zs) :=
    sorted_keyLt_of _ (List.sorted_insertionSort keyLe zs)
      (((List.perm_insertionSort keyLe zs).map Prod.fst).nodup_iff.mpr hndz)
  exact List.eq_of_perm_of_sorted hp hs1 hs2

/-- `serializeDeterministic` is invariant under object key order. -/
theorem serializeDeterministicCore_congr :
    ∀ (n : Nat) (v w : JsValue), sizeOf v ≤ n → EqUpToKeyOrder v w →
      serializeDeterministicCore v = serializeDeterministicCore w := by
  intro n
  induction n using Nat.strong_induction_on with
  | _ n ih =>
    intro v w hn h
    cases h with
    | null => rfl
    | undef => rfl
    | bool b => rfl
    | num m => rfl
    | str s => rfl
    | arr hf =>
      rename_i xs ys
      rw [serializeDeterministicCore_arr, serializeDeterministicCore_arr]
      have hmap : xs.map (fun x => (serializeDeterministicCore x).getD "null")
          = ys.map (fun x => (serializeDeterministicCore x).getD "null") := by
        apply map_congr_forall₂ hf
        intro a b ha hab
        have hsz : sizeOf a < sizeOf (JsValue.arr xs) := by
          have h1 := List.sizeOf_lt_of_mem ha
          simp only [JsValue.arr.sizeOf_spec]
          omega
        rw [ih (sizeOf a) (lt_of_lt_of_le hsz hn) a b le_rfl hab]
      rw [hmap]
    | obj hnd hperm hkeys hvals =>
      rename_i xs zs ys
      rw [serializeDeterministicCore_obj, serializeDeterministicCore_obj]
      have hsort : List.insertionSort keyLe xs = List.insertionSort keyLe zs :=
        insertionSort_eq_of_perm xs zs hperm hnd
      rw [hsort]
      have hS : List.Forall₂
          (fun p q : String × JsValue => p.1 = q.1 ∧ EqUpToKeyOrder p.2 q.2)
          zs ys := forall₂_of_keys_vals zs ys hkeys hvals
      have hSsort := insertionSort_forall₂ (fun p q hpq => hpq.1) hS
      have hfm : (List.insertionSort keyLe zs).filterMap
            (fun kv => (serializeDeterministicCore kv.2).map
              (fun s => jsonQuote kv.1 ++ ":" ++ s))
          = (List.insertionSort keyLe ys).filterMap
            (fun kv => (serializeDeterministicCore kv.2).map
              (fun s => jsonQuote kv.1 ++ ":" ++ s)) := by
        apply filterMap_congr_forall₂ hSsort
        intro p q hp hpq
        obtain ⟨hk1, hv1⟩ := hpq
        have hmem : p ∈ zs := (List.perm_insertionSort keyLe zs).mem_iff.mp hp
        have hmem2 : p ∈ xs := hperm.mem_iff.mpr hmem
        have hsz : sizeOf p.2 < sizeOf (JsValue.obj xs) := by
          have h1 := List.sizeOf_lt_of_mem hmem2
          have h2 : sizeOf p.2 < sizeOf p := by
            obtain ⟨a, b⟩ := p
            simp only [Prod.mk.sizeOf_spec]
            omega
          simp only [JsValue.obj.sizeOf_spec]
          omega
        rw [ih (sizeOf p.2) (lt_of_lt_of_le hsz hn) p.2 q.2 le_rfl hv1, hk1]
      rw [hfm]

/-- C2: for every operation descriptor and any two parameter trees that
are structurally equal up to object key order (arrays in the same order),
`createCacheKey` produces the same key. -/
theorem createCacheKey_key_order (digest : String → String)
    (operation : CacheKeyOperation) (p1 p2 : JsValue)
    (h : EqUpToKeyOrder p1 p2) :
    createCacheKey digest operation p1 = createCacheKey digest operation p2 := by
  have hop : EqUpToKeyOrder
      (JsValue.obj [("method", .str (jsUpper operation.method)),
        ("path", .str operation.path),
        ("operationId", (operation.operationId.map JsValue.str).getD .null)])
      (JsValue.obj [("method", .str (jsUpper operation.method)),
        ("path", .str operation.path),
        ("operationId", (operation.operationId.map JsValue.str).getD .null)]) := by
    refine @EqUpToKeyOrder.obj _
      [("method", .str (jsUpper operation.method)),
        ("path", .str operation.path),
        ("operationId", (operation.operationId.map JsValue.str).getD .null)] _
      (show (["method", "path", "operationId"] : List String).Nodup by decide)
      (List.Perm.refl _) rfl ?_
    refine .cons (.str _) (.cons (.str _) (.cons ?_ .nil))
    cases hoid : operation.operationId with
    | none => exact .null
    | some s => exact .str s
  have hpayload : EqUpToKeyOrder
      (JsValue.obj [("operation",
          JsValue.obj [("method", .str (jsUpper operation.method)),
            ("path", .str operation.path),
            ("operationId", (operation.operationId.map JsValue.str).getD .null)]),
        ("params", p1)])
      (JsValue.obj [("operation",
          JsValue.obj [("method", .str (jsUpper operation.method)),
            ("path", .str operation.path),
            ("operationId", (operation.operationId.map JsValue.str).getD .null)]),
        ("params", p2)]) := by
    refine @EqUpToKeyOrder.obj _
      [("operation",
          JsValue.obj [("method", .str (jsUpper operation.method)),
            ("path", .str operation.path),
            ("operationId", (operation.operationId.map JsValue.str).getD .null)]),
        ("params", p1)] _
      (show (["operation", "params"] : List String).Nodup by decide)
      (List.Perm.refl _) rfl ?_
    exact .cons hop (.cons h .nil)
  have hser := serializeDeterministicCore_congr _ _ _ le_rfl hpayload
  unfold createCacheKey
  dsimp only
  unfold deterministicStringify
  rw [hser]

/-- C2 witness: two concrete two-member objects with swapped keys hash to
the same cache key. -/
theorem createCacheKey_key_order_witness :
    createCacheKey (fun s => s) ⟨"post", "/v1/search", none⟩
        (.obj [("a", .num 1), ("b", .num 2)])
      = createCacheKey (fun s => s) ⟨"post", "/v1/search", none⟩
        (.obj [("b", .num 2), ("a", .num 1)]) :=
  createCacheKey_key_order (fun s => s) ⟨"post", "/v1/search", none⟩ _ _
    (@EqUpToKeyOrder.obj _ [("b", JsValue.num 2), ("a", JsValue.num 1)] _
      (by decide) (List.Perm.swap _ _ _) rfl
      (.cons (.num 2) (.cons (.num 1) .nil)))
